import Mathlib

/-!
# GoGitlabCloner: a shallow embedding of `main.go`

The program is sequential orchestration over external collaborators (the
GitLab client library, the SSH key loader, the git clone operation, the
filesystem).  The embedding makes every call to a collaborator an entry of an
observable trace, and takes the collaborators' answers from a `World`.

* `log.Fatal` prints its message and exits the process with status 1.
* A nil-pointer dereference is a Go panic, exit status 2.
* Normal return of `main` is exit status 0.
* The `for resultCount > 0` loop of `getAllProjects` has no bound in the source;
  the embedding counts loop iterations with a fuel argument and reports
  `Res.running` when the loop still wants to iterate and no fuel is left.

Go's `int` fields `Page`, `PerPage` and the flag `groupid` are embedded as `Int`.
The only arithmetic on them is `opts.Page + 1`, once per request; before the
page counter could leave the 64-bit range the accumulated slice would hold
more than `2^63 - 1` pointers, which no Go slice can, so wrap-around of the
page counter is not reachable.

Pointers that the source dereferences and that the library can leave nil are
`Option`s: the global client, every `*gitlab.Project` of a listing and the
`Namespace` of a project.
-/

namespace GoGitlabCloner

/-! ## Data model (the fields of the library types that `main.go` reads or writes) -/

/-- The owning namespace of a project (`gitlab.ProjectNamespace`). -/
structure ProjectNamespace where
  ID : Int
  deriving DecidableEq, Repr

/-- A project record (`gitlab.Project`); `Namespace` is a `*ProjectNamespace`, nil
when the server sends none. -/
structure Project where
  ID : Int
  Name : String
  NameWithNamespace : String
  Namespace : Option ProjectNamespace
  SSHURLToRepo : String
  Archived : Bool
  CreatedAt : Nat
  deriving DecidableEq, Repr

/-- A `*gitlab.Project`, the element type of a listing: nil or a project. -/
abbrev ProjectPtr := Option Project

/-- The request options of the listing endpoint (`gitlab.ListProjectsOptions`);
the field `Sort` is written `Sort_`, `Sort` being a reserved word;
pointer-typed optional fields are `Option`s. -/
structure ListProjectsOptions where
  Page : Int
  PerPage : Int
  Archived : Option Bool
  OrderBy : Option String
  Sort_ : Option String
  Membership : Option Bool
  deriving DecidableEq, Repr

/-- The API client handle (`gitlab.Client`), carrying the token it was built with. -/
structure Client where
  token : String
  deriving DecidableEq, Repr

/-- A loaded key pair (`ssh.PublicKeys`). -/
structure PublicKeys where
  User : String
  Signer : String
  deriving DecidableEq, Repr

/-- Where clone progress is written. -/
inductive Writer where
  | Stdout
  | Stderr
  deriving DecidableEq, Repr

/-- The options of a clone (`git.CloneOptions`). -/
structure CloneOptions where
  URL : String
  Progress : Option Writer
  Auth : Option PublicKeys
  deriving DecidableEq, Repr

/-- One invocation of `git.PlainClone(path, isBare, o)`. -/
structure CloneCall where
  path : String
  isBare : Bool
  o : CloneOptions
  deriving DecidableEq, Repr

/-- The four command-line flags after `flag.Parse()`; a flag that was not given
has its default, `""` or `0`. -/
structure Flags where
  token : String
  dest : String
  groupId : Int
  key : String
  deriving DecidableEq, Repr

/-! ## Observable events and the external world -/

/-- What the process does that an observer (or a mocked collaborator) sees. -/
inductive Event where
  | printf (msg : String)
  | fatal (msg : String)
  | nilDereference
  | NewClient (token : String)
  | Stat (path : String)
  | NewPublicKeysFromFile (user pemFile password : String)
  | ListProjects (opts : ListProjectsOptions)
  | PlainClone (call : CloneCall)
  deriving DecidableEq, Repr

/-- The answers of the external collaborators.  `ListProjects` and `PlainClone`
may answer differently from call to call: they see how many calls of the same
kind came before. -/
structure World where
  NewClient : String → Except String Client
  Stat : String → Option String
  NewPublicKeysFromFile : String → String → String → Except String PublicKeys
  ListProjects : Client → Nat → ListProjectsOptions → Except String (List ProjectPtr)
  PlainClone : Nat → CloneCall → Option String

/-- The process-wide `GLC` variable. -/
structure GitLabClient where
  Client : Option Client
  deriving DecidableEq, Repr

/-- Process state: the global client handle and the events so far. -/
structure State where
  GLC : GitLabClient
  trace : List Event
  deriving DecidableEq, Repr

/-- The state at process start: `GLC` is the zero value. -/
def State.init : State := { GLC := { Client := none }, trace := [] }

/-- Append one event. -/
def State.emit (s : State) (e : Event) : State := { s with trace := s.trace ++ [e] }

/-- The state after further events. -/
def State.extend (s : State) (es : List Event) : State := { s with trace := s.trace ++ es }

/-- The listing requests in a trace, in order. -/
def listRequests : List Event → List ListProjectsOptions
  | [] => []
  | Event.ListProjects o :: es => o :: listRequests es
  | _ :: es => listRequests es

/-- The clone invocations in a trace, in order. -/
def cloneCalls : List Event → List CloneCall
  | [] => []
  | Event.PlainClone c :: es => c :: cloneCalls es
  | _ :: es => cloneCalls es

/-- Whether an event is a call to an external collaborator. -/
def Event.isExternalCall : Event → Bool
  | Event.NewClient _ => true
  | Event.Stat _ => true
  | Event.NewPublicKeysFromFile _ _ _ => true
  | Event.ListProjects _ => true
  | Event.PlainClone _ => true
  | _ => false

/-- How a computation stands: it returned a value, the process exited with a
status, or the loop is still iterating with no fuel left. -/
inductive Res (α : Type) where
  | ok (a : α) (s : State)
  | exit (code : Nat) (s : State)
  | running (s : State)
  deriving Repr

/-- The state a computation has reached. -/
def Res.state {α : Type} : Res α → State
  | Res.ok _ s => s
  | Res.exit _ s => s
  | Res.running s => s

/-- The events of a computation. -/
def Res.trace {α : Type} (r : Res α) : List Event := r.state.trace

/-- The exit status of the process when the computation is `main`: `0` on
normal return, the exit code on exit, none while still running. -/
def Res.exitStatus {α : Type} : Res α → Option Nat
  | Res.ok _ _ => some 0
  | Res.exit code _ => some code
  | Res.running _ => none

/-- Whether the enumeration loop is still iterating. -/
def Res.isRunning {α : Type} : Res α → Bool
  | Res.running _ => true
  | _ => false

/-- The value returned to the caller, if the computation returned. -/
def Res.returned {α : Type} : Res α → Option α
  | Res.ok a _ => some a
  | _ => none

/-- Sequencing: what follows runs only after a normal return. -/
def Res.andThen {α β : Type} (r : Res α) (k : α → State → Res β) : Res β :=
  match r with
  | Res.ok a s => k a s
  | Res.exit code s => Res.exit code s
  | Res.running s => Res.running s

/-- Go's `log.Printf`. -/
def logPrintf (msg : String) (s : State) : Res Unit := Res.ok () (s.emit (Event.printf msg))

/-- Go's `log.Fatal`: print, then `os.Exit(1)`. -/
def logFatal {α : Type} (msg : String) (s : State) : Res α := Res.exit 1 (s.emit (Event.fatal msg))

/-- A nil-pointer dereference: the runtime panics, exit status 2. -/
def nilPanic {α : Type} (s : State) : Res α := Res.exit 2 (s.emit Event.nilDereference)

/-! ## The program -/

/-- Embeds `initGitlabClient`. -/
def initGitlabClient (w : World) (token : String) (s : State) : Res Unit :=
  let r := w.NewClient token
  let s := s.emit (Event.NewClient token)
  match r with
  | Except.error err => logFatal err s
  | Except.ok git => Res.ok () { s with GLC := { Client := some git } }

/-- The loop `for resultCount > 0 { ... }` of `getAllProjects`, one unit of fuel per
iteration. -/
def getAllProjectsLoop (w : World) :
    Nat → ListProjectsOptions → List ProjectPtr → Int → State → Res (List ProjectPtr)
  | 0, _, projects, resultCount, s =>
    if resultCount > 0 then Res.running s else Res.ok projects s
  | fuel + 1, opts, projects, resultCount, s =>
    if resultCount > 0 then
      (logPrintf ("Fetching all projects. Page: " ++ toString opts.Page) s).andThen fun _ s =>
      match s.GLC.Client with
      | none => nilPanic s
      | some client =>
        let r := w.ListProjects client (listRequests s.trace).length opts
        let s := s.emit (Event.ListProjects opts)
        let opts := { opts with Page := opts.Page + 1 }
        match r with
        | Except.error err => logFatal err s
        | Except.ok projectResp =>
          getAllProjectsLoop w fuel opts (projects ++ projectResp) projectResp.length s
    else Res.ok projects s

/-- Embeds `getAllProjects`. -/
def getAllProjects (w : World) (fuel : Nat) (s : State) : Res (List ProjectPtr) :=
  let projects : List ProjectPtr := []
  let opts : ListProjectsOptions :=
    { OrderBy := some "created_at"
      Sort_ := some "asc"
      Archived := some false
      Membership := some true
      PerPage := 0
      Page := 0 }
  let opts := { opts with PerPage := 100 }
  let opts := { opts with Page := 1 }
  let resultCount : Int := 1
  getAllProjectsLoop w fuel opts projects resultCount s

/-- Embeds `loadKeys`: the pair `(*ssh.PublicKeys, error)` is an `Except`. -/
def loadKeys (w : World) (privateKeyFile : String) (s : State) :
    Res (Except String PublicKeys) :=
  let err := w.Stat privateKeyFile
  let s := s.emit (Event.Stat privateKeyFile)
  match err with
  | some err => logFatal err s
  | none =>
    Res.ok (w.NewPublicKeysFromFile "git" privateKeyFile "")
      (s.emit (Event.NewPublicKeysFromFile "git" privateKeyFile ""))

/-- Embeds `cloneProject`; reading `project.NameWithNamespace` dereferences the
pointer. -/
def cloneProject (w : World) (project : ProjectPtr) (dest : String) (publicKeys : PublicKeys)
    (s : State) : Res Unit :=
  match project with
  | none => nilPanic s
  | some p =>
    (logPrintf ("Cloning: " ++ p.NameWithNamespace) s).andThen fun _ s =>
    let call : CloneCall :=
      { path := dest ++ "/" ++ p.Name
        isBare := false
        o := { URL := p.SSHURLToRepo, Progress := some Writer.Stdout, Auth := some publicKeys } }
    let err := w.PlainClone (cloneCalls s.trace).length call
    let s := s.emit (Event.PlainClone call)
    match err with
    | some err => logFatal err s
    | none => Res.ok () s

/-- The `for _, project := range projects` loop of `main`; `project.Namespace.ID`
dereferences the project pointer and then the namespace pointer, and a nil one
panics. -/
def cloneLoop (w : World) (dest : String) (groupId : Int) (keys : PublicKeys) :
    List ProjectPtr → State → Res Unit
  | [], s => Res.ok () s
  | project :: rest, s =>
    match project with
    | none => nilPanic s
    | some p =>
      match p.Namespace with
      | none => nilPanic s
      | some ns =>
        if ns.ID ≠ groupId then
          cloneLoop w dest groupId keys rest s
        else
          (cloneProject w project dest keys s).andThen fun _ s =>
          cloneLoop w dest groupId keys rest s

/-- Embeds `main`, from the parsed flags. -/
def main (w : World) (flags : Flags) (fuel : Nat) : Res Unit :=
  let s := State.init
  (if flags.token = "" then logFatal "Please set gitlab token with -token=glpat-xxxxx" s
   else Res.ok () s).andThen fun _ s =>
  (if flags.dest = "" then logFatal "Please set destination with -dest=/home/Test/git" s
   else Res.ok () s).andThen fun _ s =>
  (if flags.groupId = 0 then logFatal "Please set groupID  with -groupid=1020304" s
   else Res.ok () s).andThen fun _ s =>
  (if flags.key = "" then logFatal "Please set SSH private key path with -key=file.pem" s
   else Res.ok () s).andThen fun _ s =>
  (initGitlabClient w flags.token s).andThen fun _ s =>
  (loadKeys w flags.key s).andThen fun r s =>
  (match r with
   | Except.error err => logFatal err s
   | Except.ok keys => Res.ok keys s).andThen fun keys s =>
  (getAllProjects w fuel s).andThen fun projects s =>
  cloneLoop w flags.dest flags.groupId keys projects s

/-! ## What the claims speak of -/

/-- The request the specification describes for a page: page size 100, ordered by
creation time ascending, not archived, membership only. -/
def pageRequest (page : Int) : ListProjectsOptions :=
  { Page := page
    PerPage := 100
    Archived := some false
    OrderBy := some "created_at"
    Sort_ := some "asc"
    Membership := some true }

/-- The events of `n` consecutive loop iterations of the enumeration, the first
one asking for `page`. -/
def fetchEvents (page : Int) : Nat → List Event
  | 0 => []
  | n + 1 =>
    Event.printf ("Fetching all projects. Page: " ++ toString page) ::
      Event.ListProjects (pageRequest page) :: fetchEvents (page + 1) n

/-- The identifier of the owning group of a listed project, when the project
pointer and its namespace pointer are not nil. -/
def namespaceID (project : ProjectPtr) : Option Int :=
  project.bind fun p => p.Namespace.map fun ns => ns.ID

/-- A listed project is there with its namespace: neither the project pointer nor
the namespace pointer is nil. -/
def Namespaced (project : ProjectPtr) : Prop :=
  ∃ (p : Project) (ns : ProjectNamespace), project = some p ∧ p.Namespace = some ns

/-- The projects of a listing up to the first one that `main` cannot read the
group identifier of. -/
def namespacedPrefix (projects : List ProjectPtr) : List ProjectPtr :=
  projects.takeWhile fun project => (namespaceID project).isSome

/-- The projects of a listing whose `Namespace.ID` is `groupId`. -/
def matching (groupId : Int) (projects : List ProjectPtr) : List Project :=
  projects.reduceOption.filter fun project =>
    project.Namespace.map (fun ns => ns.ID) = some groupId

/-- The clone invocation the specification describes for a project. -/
def expectedClone (dest : String) (keys : PublicKeys) (project : Project) : CloneCall :=
  { path := dest ++ "/" ++ project.Name
    isBare := false
    o := { URL := project.SSHURLToRepo, Progress := some Writer.Stdout, Auth := some keys } }

/-- The clone invocations the specification describes for a project list: one
per matching project, in order. -/
def expectedClones (dest : String) (groupId : Int) (keys : PublicKeys)
    (projects : List ProjectPtr) : List CloneCall :=
  (matching groupId projects).map (expectedClone dest keys)

/-- The events of cloning each project of a list with success. -/
def cloneEvents (dest : String) (keys : PublicKeys) : List Project → List Event
  | [] => []
  | project :: rest =>
    Event.printf ("Cloning: " ++ project.NameWithNamespace) ::
      Event.PlainClone (expectedClone dest keys project) :: cloneEvents dest keys rest

/-- The state of `main` once the flags are checked, the client is built and the
key pair is loaded. -/
def readyState (flags : Flags) (c : Client) : State :=
  { GLC := { Client := some c }
    trace := [Event.NewClient flags.token, Event.Stat flags.key,
      Event.NewPublicKeysFromFile "git" flags.key ""] }

/-- All four flags are set. -/
def Flags.valid (flags : Flags) : Prop :=
  flags.token ≠ "" ∧ flags.dest ≠ "" ∧ flags.groupId ≠ 0 ∧ flags.key ≠ ""

instance (flags : Flags) : Decidable flags.valid := by
  unfold Flags.valid; infer_instance

/-! ## Predicates on the external world -/

/-- The server answers the listing requests number `base`, `base + 1`, ... of the
process with the pages `ps`, none of them empty, when asked for the pages
`1`, `2`, ... in the way `getAllProjects` asks. -/
def ServesPages (w : World) (c : Client) (base : Nat) (ps : List (List ProjectPtr)) : Prop :=
  ∀ (i : Nat) (h : i < ps.length),
    w.ListProjects c (base + i) (pageRequest ((i : Int) + 1)) = Except.ok (ps.get ⟨i, h⟩) ∧
      ps.get ⟨i, h⟩ ≠ []

/-- The answer of the server to the listing request number `base + n` of the
process, asking for page `n + 1`. -/
def answer (w : World) (c : Client) (base n : Nat) : Except String (List ProjectPtr) :=
  w.ListProjects c (base + n) (pageRequest ((n : Int) + 1))

/-- The clone operation succeeds on the first `n` of the invocations `calls`, made
as the invocations number `base`, `base + 1`, ... of the process. -/
def ClonesSucceed (w : World) (base : Nat) (calls : List CloneCall) (n : Nat) : Prop :=
  ∀ (i : Nat) (call : CloneCall), i < n → calls[i]? = some call →
    w.PlainClone (base + i) call = none

/-- The answer to request number `n` ends the enumeration: it is an empty page
or an error. -/
def Stops (w : World) (c : Client) (base n : Nat) : Prop :=
  answer w c base n = Except.ok [] ∨ ∃ err, answer w c base n = Except.error err

/-- The page of an answer, an error counting as no page. -/
def pageOf : Except String (List ProjectPtr) → List ProjectPtr
  | Except.ok p => p
  | Except.error _ => []

/-- The pages the server gives to the first `n` requests. -/
def pagesUpTo (w : World) (c : Client) (base n : Nat) : List (List ProjectPtr) :=
  (List.range n).map fun i => pageOf (answer w c base i)

/-- The message `main` prints for the first flag that is not set. -/
def missingMessage (flags : Flags) : String :=
  if flags.token = "" then "Please set gitlab token with -token=glpat-xxxxx"
  else if flags.dest = "" then "Please set destination with -dest=/home/Test/git"
  else if flags.groupId = 0 then "Please set groupID  with -groupid=1020304"
  else "Please set SSH private key path with -key=file.pem"

/-- The flags are set, the client is built, the key file exists and loads. -/
def Ready (w : World) (flags : Flags) (c : Client) (keys : PublicKeys) : Prop :=
  flags.valid ∧ w.NewClient flags.token = Except.ok c ∧ w.Stat flags.key = none ∧
    w.NewPublicKeysFromFile "git" flags.key "" = Except.ok keys

/-- The server gives the non-empty pages `ps` and then an empty page, to a
process that has made no listing request before. -/
def Enumerates (w : World) (c : Client) (ps : List (List ProjectPtr)) : Prop :=
  ServesPages w c 0 ps ∧ answer w c 0 ps.length = Except.ok []

/-- The requests the specification describes for `n` pages: pages `1` to `n`, in
order. -/
def pageRequests (n : Nat) : List ListProjectsOptions :=
  (List.range n).map fun i : Nat => pageRequest ((i : Int) + 1)

/-! ## Scenarios -/

/-- A project named `name` in the group `group`. -/
def exampleProject (name : String) (group : Int) : Project :=
  { ID := 1
    Name := name
    NameWithNamespace := "g / " ++ name
    Namespace := some { ID := group }
    SSHURLToRepo := "git@gitlab.example:g/" ++ name ++ ".git"
    Archived := false
    CreatedAt := 0 }

/-- A listed project named `name` in the group `group`. -/
def listed (name : String) (group : Int) : ProjectPtr := some (exampleProject name group)

/-- A listed project that carries no namespace. -/
def orphan : ProjectPtr := some { exampleProject "x" 0 with Namespace := none }

/-- A world that builds the client and loads the key, answers the listing
requests from the script `pages` (an empty page once the script is used up) and
the clones from the script `clones` (success once the script is used up). -/
def scriptedWorld (pages : List (Except String (List ProjectPtr)))
    (clones : List (Option String)) : World :=
  { NewClient := fun token => Except.ok { token := token }
    Stat := fun _ => none
    NewPublicKeysFromFile := fun user pemFile _ => Except.ok { User := user, Signer := pemFile }
    ListProjects := fun _ i _ => (pages[i]?).getD (Except.ok [])
    PlainClone := fun i _ => (clones[i]?).getD none }

/-- A world whose server never returns an empty page. -/
def endlessWorld : World :=
  { NewClient := fun token => Except.ok { token := token }
    Stat := fun _ => none
    NewPublicKeysFromFile := fun user pemFile _ => Except.ok { User := user, Signer := pemFile }
    ListProjects := fun _ _ _ => Except.ok [listed "a" 42]
    PlainClone := fun _ _ => none }

/-- The flags of the scenarios: `-token=glpat-x -dest=/tmp/out -groupid=42 -key=id_rsa`. -/
def exampleFlags : Flags := { token := "glpat-x", dest := "/tmp/out", groupId := 42, key := "id_rsa" }

/-- The client the scenario worlds build for `exampleFlags`. -/
def exampleClient : Client := { token := "glpat-x" }

/-- The key pair the scenario worlds load for `exampleFlags`. -/
def exampleKeys : PublicKeys := { User := "git", Signer := "id_rsa" }

/-- A state in which the client is set and nothing else has happened. -/
def clientState : State := { GLC := { Client := some exampleClient }, trace := [] }

/-- The conditions of a successful run: the flags are set, the client is built,
the key file exists and loads, every listing request up to and with the first
empty page succeeds, every enumerated project is there with its namespace, and
every clone of a matching project succeeds. -/
def Succeeds (w : World) (flags : Flags) : Prop :=
  ∃ (c : Client) (keys : PublicKeys) (ps : List (List ProjectPtr)),
    Ready w flags c keys ∧ Enumerates w c ps ∧
    (∀ project, project ∈ ps.flatten → Namespaced project) ∧
    ClonesSucceed w 0 (expectedClones flags.dest flags.groupId keys ps.flatten)
      (expectedClones flags.dest flags.groupId keys ps.flatten).length

/-! ## The remote listing endpoint -/

/-- A project the authenticated identity can see on the server, with whether the
identity is a member of it. -/
structure ServerProject where
  project : Project
  member : Bool
  deriving DecidableEq, Repr

/-- The key the endpoint orders by: the identifier for `order_by=id`, the creation
time otherwise (the default of the endpoint). -/
def orderKey (orderBy : Option String) (p : Project) : Int :=
  if orderBy = some "id" then p.ID else (p.CreatedAt : Int)

/-- The order of the endpoint: ascending for `sort=asc`, descending otherwise
(the default of the endpoint). -/
def orderedBefore (orderBy sort : Option String) (a b : Project) : Prop :=
  if sort = some "asc" then orderKey orderBy a ≤ orderKey orderBy b
  else orderKey orderBy b ≤ orderKey orderBy a

instance (orderBy sort : Option String) : DecidableRel (orderedBefore orderBy sort) := by
  intro a b
  unfold orderedBefore
  infer_instance

/-- Whether the endpoint keeps a visible project for a request: `archived` given
keeps the projects with that archived status, `membership=true` keeps the
projects the identity is a member of. -/
def keptBy (opts : ListProjectsOptions) (sp : ServerProject) : Bool :=
  (match opts.Archived with
    | some archived => sp.project.Archived == archived
    | none => true) &&
  (match opts.Membership with
    | some true => sp.member
    | _ => true)

/-- The whole listing the endpoint pages through for a request: the visible
projects the filters of the request keep, in the order the request asks for. -/
def fullListing (visible : List ServerProject) (opts : ListProjectsOptions) : List Project :=
  ((visible.filter (keptBy opts)).map fun sp => sp.project).insertionSort
    (orderedBefore opts.OrderBy opts.Sort_)

/-- Model of the remote listing endpoint, as the claim on the enumeration
describes it: a set of visible projects, answering a request by applying the
archived and membership filters of the request, its `order_by` and `sort`, and
returning the page asked for. -/
def serverList (visible : List ServerProject) (opts : ListProjectsOptions) : List Project :=
  ((fullListing visible opts).drop ((opts.Page - 1).toNat * opts.PerPage.toNat)).take
    opts.PerPage.toNat

/-- A world whose server is the listing endpoint over the projects `visible`. -/
def gitlabWorld (visible : List ServerProject) : World :=
  { NewClient := fun token => Except.ok { token := token }
    Stat := fun _ => none
    NewPublicKeysFromFile := fun user pemFile _ => Except.ok { User := user, Signer := pemFile }
    ListProjects := fun _ _ opts => Except.ok ((serverList visible opts).map some)
    PlainClone := fun _ _ => none }

/-- The visible projects that are not archived and that the identity is a member
of. -/
def memberProjects (visible : List ServerProject) : List Project :=
  (visible.filter fun sp => !sp.project.Archived && sp.member).map fun sp => sp.project

/-- A visible project the identity is a member of, not archived. -/
def liveProject : ServerProject :=
  { project := { exampleProject "live" 42 with CreatedAt := 3 }, member := true }

/-- A visible project the identity is a member of, archived. -/
def oldProject : ServerProject :=
  { project := { exampleProject "old" 42 with Archived := true, CreatedAt := 1 }, member := true }

/-- A visible project the identity is not a member of, not archived. -/
def publicProject : ServerProject :=
  { project := { exampleProject "public" 42 with CreatedAt := 2 }, member := false }

/-- Three visible projects. -/
def exampleVisible : List ServerProject := [liveProject, oldProject, publicProject]

/-! ## Lemmas: traces, the enumeration loop, the clone loop, `main` stage by stage -/

theorem listRequests_append (xs ys : List Event) :
    listRequests (xs ++ ys) = listRequests xs ++ listRequests ys := by
  induction xs with
  | nil => rfl
  | cons e es ih => cases e <;> simp [listRequests, ih]

theorem cloneCalls_append (xs ys : List Event) :
    cloneCalls (xs ++ ys) = cloneCalls xs ++ cloneCalls ys := by
  induction xs with
  | nil => rfl
  | cons e es ih => cases e <;> simp [cloneCalls, ih]

theorem listRequests_fetchEvents (n : Nat) : ∀ page : Int,
    listRequests (fetchEvents page n) =
      (List.range n).map fun i : Nat => pageRequest (page + (i : Int)) := by
  induction n with
  | zero => intro page; rfl
  | succ n ih =>
    intro page
    simp only [fetchEvents, listRequests, ih, List.range_succ_eq_map, List.map_cons,
      List.map_map]
    refine congrArg₂ _ (by simp) (List.map_congr_left fun i _ => ?_)
    simp only [Function.comp, Nat.cast_succ]
    rw [add_assoc, add_comm 1 (i : Int)]

theorem cloneCalls_fetchEvents (n : Nat) : ∀ page : Int, cloneCalls (fetchEvents page n) = [] := by
  induction n with
  | zero => intro page; rfl
  | succ n ih => intro page; simp [fetchEvents, cloneCalls, ih]

theorem fetchEvents_add (m : Nat) : ∀ (page : Int) (n : Nat),
    fetchEvents page (m + n) = fetchEvents page m ++ fetchEvents (page + m) n := by
  induction m with
  | zero => intro page n; simp [fetchEvents]
  | succ m ih =>
    intro page n
    rw [Nat.succ_add]
    simp only [fetchEvents, ih, List.cons_append, Nat.cast_succ]
    rw [add_assoc, add_comm 1 (m : Int)]

theorem cloneCalls_cloneEvents (dest : String) (keys : PublicKeys) (ps : List Project) :
    cloneCalls (cloneEvents dest keys ps) = ps.map (expectedClone dest keys) := by
  induction ps with
  | nil => rfl
  | cons p ps ih => simp [cloneEvents, cloneCalls, ih]

theorem listRequests_cloneEvents (dest : String) (keys : PublicKeys) (ps : List Project) :
    listRequests (cloneEvents dest keys ps) = [] := by
  induction ps with
  | nil => rfl
  | cons p ps ih => simp [cloneEvents, listRequests, ih]

theorem State.extend_extend (s : State) (xs ys : List Event) :
    (s.extend xs).extend ys = s.extend (xs ++ ys) := by
  simp [State.extend]

theorem State.extend_nil (s : State) : s.extend [] = s := by
  simp [State.extend]

theorem loop_done (w : World) (fuel : Nat) (opts : ListProjectsOptions) (acc : List ProjectPtr)
    (rc : Int) (s : State) (hrc : ¬ 0 < rc) :
    getAllProjectsLoop w fuel opts acc rc s = Res.ok acc s := by
  cases fuel <;> simp [getAllProjectsLoop, hrc]

theorem loop_out_of_fuel (w : World) (opts : ListProjectsOptions) (acc : List ProjectPtr)
    (rc : Int) (s : State) (hrc : 0 < rc) :
    getAllProjectsLoop w 0 opts acc rc s = Res.running s := by
  simp [getAllProjectsLoop, hrc]

theorem loop_step (w : World) (c : Client) (fuel : Nat) (page : Int) (acc p : List ProjectPtr)
    (rc : Int) (s : State) (hrc : 0 < rc) (hc : s.GLC.Client = some c)
    (h : w.ListProjects c (listRequests s.trace).length (pageRequest page) = Except.ok p) :
    getAllProjectsLoop w (fuel + 1) (pageRequest page) acc rc s =
      getAllProjectsLoop w fuel (pageRequest (page + 1)) (acc ++ p) p.length
        (s.extend (fetchEvents page 1)) := by
  simp only [pageRequest] at h
  simp [getAllProjectsLoop, hrc, logPrintf, Res.andThen, State.emit, hc, listRequests_append,
    listRequests, h, State.extend, fetchEvents, pageRequest]

theorem loop_step_error (w : World) (c : Client) (fuel : Nat) (page : Int) (acc : List ProjectPtr)
    (rc : Int) (s : State) (err : String) (hrc : 0 < rc) (hc : s.GLC.Client = some c)
    (h : w.ListProjects c (listRequests s.trace).length (pageRequest page) = Except.error err) :
    getAllProjectsLoop w (fuel + 1) (pageRequest page) acc rc s =
      Res.exit 1 (s.extend (fetchEvents page 1 ++ [Event.fatal err])) := by
  simp only [pageRequest] at h
  simp [getAllProjectsLoop, hrc, logPrintf, Res.andThen, State.emit, hc, listRequests_append,
    listRequests, h, State.extend, fetchEvents, pageRequest, logFatal]

theorem loop_step_nil (w : World) (fuel : Nat) (page : Int) (acc : List ProjectPtr)
    (rc : Int) (s : State) (hrc : 0 < rc) (hc : s.GLC.Client = none) :
    getAllProjectsLoop w (fuel + 1) (pageRequest page) acc rc s =
      Res.exit 2 (s.extend
        [Event.printf ("Fetching all projects. Page: " ++ toString page),
          Event.nilDereference]) := by
  simp [getAllProjectsLoop, hrc, logPrintf, Res.andThen, State.emit, hc, State.extend,
    nilPanic, pageRequest]

/-- After a run of non-empty pages the loop stands where it would stand had it
started behind them. -/
theorem loop_prefix (w : World) (c : Client) : ∀ (ps : List (List ProjectPtr)) (page : Int)
    (acc : List ProjectPtr) (rc : Int) (s : State) (k : Nat), 0 < rc → s.GLC.Client = some c →
    (∀ (i : Nat) (h : i < ps.length),
      w.ListProjects c ((listRequests s.trace).length + i) (pageRequest (page + (i : Int))) =
        Except.ok (ps.get ⟨i, h⟩) ∧ ps.get ⟨i, h⟩ ≠ []) →
    ∃ rc2 : Int, 0 < rc2 ∧
      getAllProjectsLoop w (ps.length + k) (pageRequest page) acc rc s =
        getAllProjectsLoop w k (pageRequest (page + (ps.length : Int))) (acc ++ ps.flatten) rc2
          (s.extend (fetchEvents page ps.length)) := by
  intro ps
  induction ps with
  | nil =>
    intro page acc rc s k hrc _ _
    exact ⟨rc, hrc, by simp [fetchEvents, State.extend_nil]⟩
  | cons p ps ih =>
    intro page acc rc s k hrc hc hps
    have h0 := hps 0 (by simp)
    simp only [List.get_eq_getElem, List.getElem_cons_zero, Nat.cast_zero, add_zero] at h0
    have hlen : (0 : Int) < (p.length : Int) := by
      have : 0 < p.length := List.length_pos.mpr h0.2
      exact_mod_cast this
    have hs : (s.extend (fetchEvents page 1)).GLC.Client = some c := by simpa [State.extend] using hc
    obtain ⟨rc2, hrc2, hrun⟩ := ih (page + 1) (acc ++ p) p.length (s.extend (fetchEvents page 1)) k
      hlen hs (by
        intro i h
        have hi := hps (i + 1) (by simpa using h)
        simp only [List.get_eq_getElem, List.getElem_cons_succ, Nat.cast_succ] at hi
        simp only [List.get_eq_getElem, State.extend, listRequests_append, fetchEvents,
          listRequests, List.length_append, List.length_cons, List.length_nil]
        have e : (listRequests s.trace).length + (0 + 1) + i =
            (listRequests s.trace).length + (i + 1) := by omega
        rw [add_assoc page 1 (i : Int), add_comm 1 (i : Int), e]
        exact hi)
    refine ⟨rc2, hrc2, ?_⟩
    have e1 : page + 1 + (ps.length : Int) = page + ((ps.length + 1 : Nat) : Int) := by
      push_cast; ring
    rw [List.length_cons, Nat.succ_add, loop_step w c _ page acc p rc s hrc hc h0.1, hrun,
      State.extend_extend, e1]
    simp [fetchEvents, List.flatten_cons, List.append_assoc]

theorem getAllProjects_eq (w : World) (fuel : Nat) (s : State) :
    getAllProjects w fuel s = getAllProjectsLoop w fuel (pageRequest 1) [] 1 s := rfl

theorem getAllProjects_prefix (w : World) (c : Client) (ps : List (List ProjectPtr)) (s : State)
    (k : Nat) (hc : s.GLC.Client = some c)
    (hps : ServesPages w c (listRequests s.trace).length ps) :
    ∃ rc : Int, 0 < rc ∧
      getAllProjects w (ps.length + k) s =
        getAllProjectsLoop w k (pageRequest ((ps.length : Int) + 1)) ps.flatten rc
          (s.extend (fetchEvents 1 ps.length)) := by
  obtain ⟨rc, hrc, h⟩ := loop_prefix w c ps 1 [] 1 s k Int.one_pos hc (by
    intro i h
    rw [add_comm 1 (i : Int)]
    exact hps i h)
  refine ⟨rc, hrc, ?_⟩
  rw [getAllProjects_eq, h, add_comm 1 (ps.length : Int), List.nil_append]

theorem fetchEvents_succ_last (n : Nat) (page : Int) :
    fetchEvents page (n + 1) = fetchEvents page n ++ fetchEvents (page + (n : Int)) 1 :=
  fetchEvents_add n page 1

theorem getAllProjects_ok (w : World) (c : Client) (ps : List (List ProjectPtr)) (s : State)
    (fuel : Nat) (hc : s.GLC.Client = some c)
    (hps : ServesPages w c (listRequests s.trace).length ps)
    (hlast : answer w c (listRequests s.trace).length ps.length = Except.ok [])
    (hfuel : ps.length + 1 ≤ fuel) :
    getAllProjects w fuel s =
      Res.ok ps.flatten (s.extend (fetchEvents 1 (ps.length + 1))) := by
  obtain ⟨k, rfl⟩ : ∃ k, fuel = ps.length + (k + 1) := ⟨fuel - (ps.length + 1), by omega⟩
  obtain ⟨rc, hrc, h⟩ := getAllProjects_prefix w c ps s (k + 1) hc hps
  rw [h, loop_step w c k _ _ [] rc _ hrc (by simpa [State.extend] using hc)
    (by simpa [State.extend, listRequests_append, listRequests_fetchEvents, answer] using hlast),
    loop_done _ _ _ _ _ _ (by simp), State.extend_extend, List.append_nil,
    fetchEvents_succ_last ps.length 1, add_comm (ps.length : Int) 1]

theorem getAllProjects_error (w : World) (c : Client) (ps : List (List ProjectPtr)) (s : State)
    (fuel : Nat) (err : String) (hc : s.GLC.Client = some c)
    (hps : ServesPages w c (listRequests s.trace).length ps)
    (hlast : answer w c (listRequests s.trace).length ps.length = Except.error err)
    (hfuel : ps.length + 1 ≤ fuel) :
    getAllProjects w fuel s =
      Res.exit 1 (s.extend (fetchEvents 1 (ps.length + 1) ++ [Event.fatal err])) := by
  obtain ⟨k, rfl⟩ : ∃ k, fuel = ps.length + (k + 1) := ⟨fuel - (ps.length + 1), by omega⟩
  obtain ⟨rc, hrc, h⟩ := getAllProjects_prefix w c ps s (k + 1) hc hps
  rw [h, loop_step_error w c k _ _ rc _ err hrc (by simpa [State.extend] using hc)
    (by simpa [State.extend, listRequests_append, listRequests_fetchEvents, answer] using hlast),
    State.extend_extend, fetchEvents_succ_last ps.length 1, add_comm (ps.length : Int) 1,
    List.append_assoc]

theorem getAllProjects_running (w : World) (c : Client) (ps : List (List ProjectPtr)) (s : State)
    (hc : s.GLC.Client = some c)
    (hps : ServesPages w c (listRequests s.trace).length ps) :
    getAllProjects w ps.length s = Res.running (s.extend (fetchEvents 1 ps.length)) := by
  obtain ⟨rc, hrc, h⟩ := getAllProjects_prefix w c ps s 0 hc hps
  rw [Nat.add_zero] at h
  rw [h, loop_out_of_fuel _ _ _ _ _ hrc]

theorem cloneProject_ok (w : World) (project : Project) (dest : String) (keys : PublicKeys)
    (s : State)
    (h : w.PlainClone (cloneCalls s.trace).length (expectedClone dest keys project) = none) :
    cloneProject w (some project) dest keys s =
      Res.ok () (s.extend (cloneEvents dest keys [project])) := by
  simp only [expectedClone] at h
  simp [cloneProject, logPrintf, Res.andThen, State.emit, cloneCalls_append, cloneCalls, h,
    State.extend, cloneEvents, expectedClone]

theorem cloneProject_error (w : World) (project : Project) (dest : String) (keys : PublicKeys)
    (s : State) (err : String)
    (h : w.PlainClone (cloneCalls s.trace).length (expectedClone dest keys project) = some err) :
    cloneProject w (some project) dest keys s =
      Res.exit 1 (s.extend (cloneEvents dest keys [project] ++ [Event.fatal err])) := by
  simp only [expectedClone] at h
  simp [cloneProject, logPrintf, Res.andThen, State.emit, cloneCalls_append, cloneCalls, h,
    State.extend, cloneEvents, expectedClone, logFatal]

theorem matching_cons_of_ne (groupId : Int) (p : Project) (rest : List ProjectPtr)
    (h : p.Namespace.map (fun ns => ns.ID) ≠ some groupId) :
    matching groupId (some p :: rest) = matching groupId rest := by
  rw [matching, List.reduceOption_cons_of_some, List.filter_cons,
    if_neg (by rw [decide_eq_true_eq]; exact h)]
  rfl

theorem matching_cons_of_eq (groupId : Int) (p : Project) (rest : List ProjectPtr)
    (h : p.Namespace.map (fun ns => ns.ID) = some groupId) :
    matching groupId (some p :: rest) = p :: matching groupId rest := by
  rw [matching, List.reduceOption_cons_of_some, List.filter_cons,
    if_pos (by rw [decide_eq_true_eq]; exact h)]
  rfl

theorem matching_append (groupId : Int) (xs ys : List ProjectPtr) :
    matching groupId (xs ++ ys) = matching groupId xs ++ matching groupId ys := by
  simp [matching, List.reduceOption_append]

theorem expectedClones_append (dest : String) (groupId : Int) (keys : PublicKeys)
    (xs ys : List ProjectPtr) :
    expectedClones dest groupId keys (xs ++ ys) =
      expectedClones dest groupId keys xs ++ expectedClones dest groupId keys ys := by
  simp [expectedClones, matching_append]

theorem cloneEvents_cons (dest : String) (keys : PublicKeys) (p : Project) (ps : List Project) :
    cloneEvents dest keys (p :: ps) = cloneEvents dest keys [p] ++ cloneEvents dest keys ps := by
  simp [cloneEvents]

theorem cloneCalls_extend_one (dest : String) (keys : PublicKeys) (p : Project) (s : State) :
    (cloneCalls (s.extend (cloneEvents dest keys [p])).trace).length =
      (cloneCalls s.trace).length + 1 := by
  simp [State.extend, cloneCalls_append, cloneEvents, cloneCalls]

/-- A project whose group identifier cannot be read stops the loop with a panic. -/
theorem cloneLoop_cons_unreadable (w : World) (dest : String) (groupId : Int)
    (keys : PublicKeys) (d : ProjectPtr) (rest : List ProjectPtr) (s : State)
    (h : namespaceID d = none) :
    cloneLoop w dest groupId keys (d :: rest) s = Res.exit 2 (s.extend [Event.nilDereference]) := by
  cases d with
  | none => simp [cloneLoop, nilPanic, State.emit, State.extend]
  | some p =>
    cases hns : p.Namespace with
    | none => simp [cloneLoop, hns, nilPanic, State.emit, State.extend]
    | some ns => simp [namespaceID, hns] at h

theorem cloneLoop_cons_skip (w : World) (dest : String) (groupId : Int) (keys : PublicKeys)
    (p : Project) (rest : List ProjectPtr) (s : State)
    (hsome : p.Namespace ≠ none)
    (h : p.Namespace.map (fun ns => ns.ID) ≠ some groupId) :
    cloneLoop w dest groupId keys (some p :: rest) s = cloneLoop w dest groupId keys rest s := by
  cases hns : p.Namespace with
  | none => exact absurd hns hsome
  | some ns =>
    have hne : ns.ID ≠ groupId := by simpa [hns] using h
    simp [cloneLoop, hns, hne]

theorem cloneLoop_cons_clone (w : World) (dest : String) (groupId : Int) (keys : PublicKeys)
    (p : Project) (rest : List ProjectPtr) (s : State)
    (h : p.Namespace.map (fun ns => ns.ID) = some groupId) :
    cloneLoop w dest groupId keys (some p :: rest) s =
      (cloneProject w (some p) dest keys s).andThen fun _ s =>
        cloneLoop w dest groupId keys rest s := by
  cases hns : p.Namespace with
  | none => simp [hns] at h
  | some ns =>
    have heq : ns.ID = groupId := by simpa [hns] using h
    simp [cloneLoop, hns, heq]

theorem namespaced_iff (d : ProjectPtr) :
    Namespaced d ↔ (namespaceID d).isSome = true := by
  constructor
  · rintro ⟨p, ns, rfl, hns⟩
    simp [namespaceID, hns]
  · intro h
    cases d with
    | none => simp [namespaceID] at h
    | some p =>
      cases hns : p.Namespace with
      | none => simp [namespaceID, hns] at h
      | some ns => exact ⟨p, ns, rfl, hns⟩

theorem namespace_ne_none_of_isSome (p : Project) (h : (namespaceID (some p)).isSome = true) :
    p.Namespace ≠ none := by
  intro hn
  simp [namespaceID, hn] at h

/-- The loop over a list and then another is the loop over both. -/
theorem cloneLoop_append (w : World) (dest : String) (groupId : Int) (keys : PublicKeys) :
    ∀ (xs ys : List ProjectPtr) (s : State),
    cloneLoop w dest groupId keys (xs ++ ys) s =
      (cloneLoop w dest groupId keys xs s).andThen fun _ s =>
        cloneLoop w dest groupId keys ys s := by
  intro xs
  induction xs with
  | nil => intro ys s; simp [cloneLoop, Res.andThen]
  | cons d xs ih =>
    intro ys s
    cases hd : namespaceID d with
    | none =>
      rw [List.cons_append, cloneLoop_cons_unreadable w dest groupId keys d _ s hd,
        cloneLoop_cons_unreadable w dest groupId keys d _ s hd]
      rfl
    | some g =>
      cases d with
      | none => simp [namespaceID] at hd
      | some p =>
        have hsome : p.Namespace ≠ none :=
          namespace_ne_none_of_isSome p (by rw [hd]; rfl)
        by_cases hp : p.Namespace.map (fun ns => ns.ID) = some groupId
        · rw [List.cons_append, cloneLoop_cons_clone w dest groupId keys p _ s hp,
            cloneLoop_cons_clone w dest groupId keys p _ s hp]
          cases cloneProject w (some p) dest keys s with
          | ok a s2 => simp only [Res.andThen]; exact ih ys s2
          | exit code s2 => rfl
          | running s2 => rfl
        · rw [List.cons_append, cloneLoop_cons_skip w dest groupId keys p _ s hsome hp,
            cloneLoop_cons_skip w dest groupId keys p _ s hsome hp]
          exact ih ys s

theorem cloneLoop_ok (w : World) (dest : String) (groupId : Int) (keys : PublicKeys) :
    ∀ (projects : List ProjectPtr) (s : State),
    (∀ d, d ∈ projects → (namespaceID d).isSome = true) →
    ClonesSucceed w (cloneCalls s.trace).length (expectedClones dest groupId keys projects)
      (expectedClones dest groupId keys projects).length →
    cloneLoop w dest groupId keys projects s =
      Res.ok () (s.extend (cloneEvents dest keys (matching groupId projects))) := by
  intro projects
  induction projects with
  | nil => intro s _ _; simp [cloneLoop, matching, cloneEvents, State.extend_nil]
  | cons d rest ih =>
    intro s hns h
    have hrestns : ∀ d2, d2 ∈ rest → (namespaceID d2).isSome = true :=
      fun d2 hd2 => hns d2 (List.mem_cons_of_mem _ hd2)
    cases d with
    | none => exact absurd (hns none (List.mem_cons_self _ _)) (by simp [namespaceID])
    | some p =>
      have hsome := namespace_ne_none_of_isSome p (hns (some p) (List.mem_cons_self _ _))
      by_cases hp : p.Namespace.map (fun ns => ns.ID) = some groupId
      · have h0 := h 0 (expectedClone dest keys p)
          (by simp [expectedClones, matching_cons_of_eq _ _ _ hp])
          (by simp [expectedClones, matching_cons_of_eq _ _ _ hp])
        rw [Nat.add_zero] at h0
        have hrest := ih (s.extend (cloneEvents dest keys [p])) hrestns (by
          intro i call hi hcall
          rw [cloneCalls_extend_one, Nat.add_assoc, Nat.add_comm 1 i]
          refine h (i + 1) call ?_ ?_
          · simpa [expectedClones, matching_cons_of_eq _ _ _ hp] using hi
          · simpa [expectedClones, matching_cons_of_eq _ _ _ hp] using hcall)
        rw [cloneLoop_cons_clone w dest groupId keys p rest s hp,
          cloneProject_ok w p dest keys s h0]
        simp only [Res.andThen]
        rw [hrest, State.extend_extend, matching_cons_of_eq _ _ _ hp, ← cloneEvents_cons]
      · have hrest := ih s hrestns
          (by simpa [expectedClones, matching_cons_of_ne _ _ _ hp] using h)
        rw [cloneLoop_cons_skip w dest groupId keys p rest s hsome hp, hrest,
          matching_cons_of_ne _ _ _ hp]

theorem cloneLoop_error_namespaced (w : World) (dest : String) (groupId : Int)
    (keys : PublicKeys) (err : String) :
    ∀ (projects : List ProjectPtr) (s : State) (k : Nat) (call : CloneCall),
    (∀ d, d ∈ projects → (namespaceID d).isSome = true) →
    ClonesSucceed w (cloneCalls s.trace).length (expectedClones dest groupId keys projects) k →
    (expectedClones dest groupId keys projects)[k]? = some call →
    w.PlainClone ((cloneCalls s.trace).length + k) call = some err →
    cloneLoop w dest groupId keys projects s =
      Res.exit 1 (s.extend
        (cloneEvents dest keys ((matching groupId projects).take (k + 1)) ++
          [Event.fatal err])) := by
  intro projects
  induction projects with
  | nil => intro s k call _ _ hcall _; simp [expectedClones, matching] at hcall
  | cons d rest ih =>
    intro s k call hns h hcall hfail
    have hrestns : ∀ d2, d2 ∈ rest → (namespaceID d2).isSome = true :=
      fun d2 hd2 => hns d2 (List.mem_cons_of_mem _ hd2)
    cases d with
    | none => exact absurd (hns none (List.mem_cons_self _ _)) (by simp [namespaceID])
    | some p =>
      have hsome := namespace_ne_none_of_isSome p (hns (some p) (List.mem_cons_self _ _))
      by_cases hp : p.Namespace.map (fun ns => ns.ID) = some groupId
      · rw [cloneLoop_cons_clone w dest groupId keys p rest s hp, matching_cons_of_eq _ _ _ hp]
        cases k with
        | zero =>
          have hc0 : call = expectedClone dest keys p := by
            simpa [expectedClones, matching_cons_of_eq _ _ _ hp, eq_comm] using hcall
          subst hc0
          rw [Nat.add_zero] at hfail
          rw [cloneProject_error w p dest keys s err hfail]
          simp [Res.andThen]
        | succ k =>
          have h0 := h 0 (expectedClone dest keys p) (Nat.succ_pos k)
            (by simp [expectedClones, matching_cons_of_eq _ _ _ hp])
          rw [Nat.add_zero] at h0
          have hrest := ih (s.extend (cloneEvents dest keys [p])) k call hrestns (by
              intro i c hi hc
              rw [cloneCalls_extend_one, Nat.add_assoc, Nat.add_comm 1 i]
              refine h (i + 1) c (Nat.succ_lt_succ hi) ?_
              simpa [expectedClones, matching_cons_of_eq _ _ _ hp] using hc)
            (by simpa [expectedClones, matching_cons_of_eq _ _ _ hp] using hcall)
            (by
              rw [cloneCalls_extend_one, Nat.add_assoc, Nat.add_comm 1 k]
              exact hfail)
          rw [cloneProject_ok w p dest keys s h0]
          simp only [Res.andThen]
          rw [hrest, State.extend_extend, List.take_succ_cons,
            cloneEvents_cons dest keys p (List.take (k + 1) (matching groupId rest)),
            List.append_assoc]
      · have hrest := ih s k call hrestns
          (by simpa [expectedClones, matching_cons_of_ne _ _ _ hp] using h)
          (by simpa [expectedClones, matching_cons_of_ne _ _ _ hp] using hcall) hfail
        rw [cloneLoop_cons_skip w dest groupId keys p rest s hsome hp, hrest,
          matching_cons_of_ne _ _ _ hp]

/-- A failing clone among the projects before the first unreadable one ends the
loop with status 1, whatever follows. -/
theorem cloneLoop_error (w : World) (dest : String) (groupId : Int) (keys : PublicKeys)
    (err : String) (pre rest : List ProjectPtr) (s : State) (k : Nat) (call : CloneCall)
    (hns : ∀ d, d ∈ pre → (namespaceID d).isSome = true)
    (h : ClonesSucceed w (cloneCalls s.trace).length (expectedClones dest groupId keys pre) k)
    (hcall : (expectedClones dest groupId keys pre)[k]? = some call)
    (hfail : w.PlainClone ((cloneCalls s.trace).length + k) call = some err) :
    cloneLoop w dest groupId keys (pre ++ rest) s =
      Res.exit 1 (s.extend
        (cloneEvents dest keys ((matching groupId pre).take (k + 1)) ++ [Event.fatal err])) := by
  rw [cloneLoop_append, cloneLoop_error_namespaced w dest groupId keys err pre s k call hns h
    hcall hfail]
  rfl

/-- When the clones of the projects before the first unreadable one succeed, the
loop panics at that one. -/
theorem cloneLoop_panic (w : World) (dest : String) (groupId : Int) (keys : PublicKeys)
    (pre : List ProjectPtr) (d : ProjectPtr) (rest : List ProjectPtr) (s : State)
    (hns : ∀ d2, d2 ∈ pre → (namespaceID d2).isSome = true) (hd : namespaceID d = none)
    (h : ClonesSucceed w (cloneCalls s.trace).length (expectedClones dest groupId keys pre)
      (expectedClones dest groupId keys pre).length) :
    cloneLoop w dest groupId keys (pre ++ d :: rest) s =
      Res.exit 2 (s.extend
        (cloneEvents dest keys (matching groupId pre) ++ [Event.nilDereference])) := by
  rw [cloneLoop_append, cloneLoop_ok w dest groupId keys pre s hns h]
  simp only [Res.andThen]
  rw [cloneLoop_cons_unreadable w dest groupId keys d rest _ hd, State.extend_extend]

theorem namespacedPrefix_namespaced (projects : List ProjectPtr) :
    ∀ d, d ∈ namespacedPrefix projects → (namespaceID d).isSome = true := by
  induction projects with
  | nil => intro d hd; simp [namespacedPrefix] at hd
  | cons x xs ih =>
    intro d hd
    by_cases hx : (namespaceID x).isSome = true
    · have hcons : namespacedPrefix (x :: xs) = x :: namespacedPrefix xs := by
        simp [namespacedPrefix, List.takeWhile_cons, hx]
      rw [hcons] at hd
      rcases List.mem_cons.mp hd with h | h
      · rw [h]; exact hx
      · exact ih d h
    · have hnil : namespacedPrefix (x :: xs) = [] := by
        simp [namespacedPrefix, List.takeWhile_cons, hx]
      rw [hnil] at hd
      simp at hd

/-- A listing is all readable, or is its readable prefix followed by a project
whose group identifier cannot be read. -/
theorem namespacedPrefix_split (projects : List ProjectPtr) :
    ((∀ d, d ∈ projects → (namespaceID d).isSome = true) ∧
      namespacedPrefix projects = projects) ∨
    ∃ d rest, namespaceID d = none ∧ projects = namespacedPrefix projects ++ d :: rest := by
  induction projects with
  | nil => exact Or.inl ⟨fun d hd => by simp at hd, rfl⟩
  | cons x xs ih =>
    by_cases hx : (namespaceID x).isSome = true
    · have hcons : namespacedPrefix (x :: xs) = x :: namespacedPrefix xs := by
        simp [namespacedPrefix, List.takeWhile_cons, hx]
      rcases ih with ⟨hall, heq⟩ | ⟨d, rest, hd, hsplit⟩
      · refine Or.inl ⟨?_, by rw [hcons, heq]⟩
        intro d hd
        rcases List.mem_cons.mp hd with h | h
        · rw [h]; exact hx
        · exact hall d h
      · refine Or.inr ⟨d, rest, hd, ?_⟩
        rw [hcons, List.cons_append, ← hsplit]
    · refine Or.inr ⟨x, xs, ?_, ?_⟩
      · cases hn : namespaceID x with
        | none => rfl
        | some g => rw [hn] at hx; exact absurd rfl hx
      · have hnil : namespacedPrefix (x :: xs) = [] := by
          simp [namespacedPrefix, List.takeWhile_cons, hx]
        rw [hnil, List.nil_append]

theorem namespacedPrefix_append_rest (projects : List ProjectPtr) :
    ∃ rest, projects = namespacedPrefix projects ++ rest := by
  rcases namespacedPrefix_split projects with ⟨_, heq⟩ | ⟨d, rest, _, hsplit⟩
  · exact ⟨[], by rw [heq, List.append_nil]⟩
  · exact ⟨d :: rest, hsplit⟩

theorem servesPages_take (w : World) (c : Client) (base : Nat) (ps : List (List ProjectPtr))
    (k : Nat) (hps : ServesPages w c base ps) : ServesPages w c base (ps.take k) := by
  intro i h
  have hi : i < ps.length := by
    have := h
    rw [List.length_take] at this
    omega
  have := hps i hi
  simpa [List.getElem_take] using this

theorem getAllProjects_running_of_le (w : World) (c : Client) (ps : List (List ProjectPtr))
    (s : State) (fuel : Nat) (hc : s.GLC.Client = some c)
    (hps : ServesPages w c (listRequests s.trace).length ps) (hfuel : fuel ≤ ps.length) :
    getAllProjects w fuel s = Res.running (s.extend (fetchEvents 1 fuel)) := by
  have h := getAllProjects_running w c (ps.take fuel) s hc (servesPages_take w c _ ps fuel hps)
  rwa [List.length_take, Nat.min_eq_left hfuel] at h

theorem not_stops_iff (w : World) (c : Client) (base n : Nat) :
    ¬ Stops w c base n ↔ ∃ p, answer w c base n = Except.ok p ∧ p ≠ [] := by
  unfold Stops
  cases h : answer w c base n with
  | error err => simp
  | ok p => by_cases hp : p = [] <;> simp [hp]

theorem length_pagesUpTo (w : World) (c : Client) (base n : Nat) :
    (pagesUpTo w c base n).length = n := by
  simp [pagesUpTo]

theorem servesPages_pagesUpTo (w : World) (c : Client) (base n : Nat)
    (h : ∀ i, i < n → ¬ Stops w c base i) : ServesPages w c base (pagesUpTo w c base n) := by
  intro i hi
  have hin : i < n := by simpa [pagesUpTo] using hi
  obtain ⟨p, hp, hne⟩ := (not_stops_iff w c base i).mp (h i hin)
  have hget : (pagesUpTo w c base n).get ⟨i, hi⟩ = p := by
    simp [pagesUpTo, hp, pageOf]
  rw [hget]
  exact ⟨hp, hne⟩

theorem servesPages_not_stops (w : World) (c : Client) (base : Nat) (ps : List (List ProjectPtr))
    (hps : ServesPages w c base ps) (i : Nat) (hi : i < ps.length) : ¬ Stops w c base i :=
  (not_stops_iff w c base i).mpr ⟨_, hps i hi⟩

/-- The pages a server serves up to a given request are determined by the server. -/
theorem servesPages_eq (w : World) (c : Client) (base : Nat) (ps : List (List ProjectPtr))
    (hps : ServesPages w c base ps) : ps = pagesUpTo w c base ps.length := by
  apply List.ext_get
  · simp [pagesUpTo]
  · intro i h1 h2
    have h := (hps i h1).1
    have : answer w c base i = Except.ok (ps.get ⟨i, h1⟩) := h
    simp [pagesUpTo, this, pageOf]

/-- Every server either ends the enumeration at a first request, with an empty
page or with an error, or never ends it. -/
theorem enumeration_cases (w : World) (c : Client) (base : Nat) :
    (∃ ps, ServesPages w c base ps ∧ answer w c base ps.length = Except.ok []) ∨
    (∃ ps err, ServesPages w c base ps ∧ answer w c base ps.length = Except.error err) ∨
    (∀ n, ¬ Stops w c base n) := by
  classical
  by_cases h : ∃ n, Stops w c base n
  · have hmin : ∀ i, i < Nat.find h → ¬ Stops w c base i := fun i hi => Nat.find_min h hi
    have hps := servesPages_pagesUpTo w c base (Nat.find h) hmin
    rcases Nat.find_spec h with h0 | ⟨err, h0⟩
    · exact Or.inl ⟨_, hps, by rw [length_pagesUpTo]; exact h0⟩
    · exact Or.inr (Or.inl ⟨_, err, hps, by rw [length_pagesUpTo]; exact h0⟩)
  · exact Or.inr (Or.inr fun n hn => h ⟨n, hn⟩)

theorem getAllProjects_never (w : World) (c : Client) (s : State) (fuel : Nat)
    (hc : s.GLC.Client = some c) (h : ∀ n, ¬ Stops w c (listRequests s.trace).length n) :
    getAllProjects w fuel s = Res.running (s.extend (fetchEvents 1 fuel)) := by
  have hps := servesPages_pagesUpTo w c (listRequests s.trace).length fuel fun i _ => h i
  exact getAllProjects_running_of_le w c _ s fuel hc hps (by rw [length_pagesUpTo])

/-- Every run of the clone loop either succeeds on all expected invocations or
fails at a first one. -/
theorem clones_cases (w : World) (base : Nat) (calls : List CloneCall) :
    ClonesSucceed w base calls calls.length ∨
    ∃ k call err, ClonesSucceed w base calls k ∧ calls[k]? = some call ∧
      w.PlainClone (base + k) call = some err := by
  classical
  by_cases h : ∃ k, ∃ call err, calls[k]? = some call ∧ w.PlainClone (base + k) call = some err
  · obtain ⟨call, err, hcall, hfail⟩ := Nat.find_spec h
    refine Or.inr ⟨Nat.find h, call, err, ?_, hcall, hfail⟩
    intro i c hi hc
    have hmin := Nat.find_min h hi
    cases hw : w.PlainClone (base + i) c with
    | none => rfl
    | some e => exact absurd ⟨c, e, hc, hw⟩ hmin
  · refine Or.inl ?_
    intro i c _ hc
    cases hw : w.PlainClone (base + i) c with
    | none => rfl
    | some e => exact absurd ⟨i, c, e, hc, hw⟩ h

theorem main_missing (w : World) (flags : Flags) (fuel : Nat) (h : ¬ flags.valid) :
    main w flags fuel = Res.exit 1 (State.init.extend [Event.fatal (missingMessage flags)]) := by
  unfold Flags.valid at h
  by_cases h1 : flags.token = ""
  · simp [main, missingMessage, h1, logFatal, Res.andThen, State.emit, State.extend]
  by_cases h2 : flags.dest = ""
  · simp [main, missingMessage, h1, h2, logFatal, Res.andThen, State.emit, State.extend]
  by_cases h3 : flags.groupId = 0
  · simp [main, missingMessage, h1, h2, h3, logFatal, Res.andThen, State.emit, State.extend]
  have h4 : flags.key = "" := by
    by_contra h4
    exact h ⟨h1, h2, h3, h4⟩
  simp [main, missingMessage, h1, h2, h3, h4, logFatal, Res.andThen, State.emit, State.extend]

theorem main_client_error (w : World) (flags : Flags) (fuel : Nat) (err : String)
    (hv : flags.valid) (hclient : w.NewClient flags.token = Except.error err) :
    main w flags fuel =
      Res.exit 1 (State.init.extend [Event.NewClient flags.token, Event.fatal err]) := by
  obtain ⟨h1, h2, h3, h4⟩ := hv
  simp [main, h1, h2, h3, h4, logFatal, Res.andThen, State.emit, State.extend, initGitlabClient,
    hclient, State.init]

theorem main_stat_error (w : World) (flags : Flags) (fuel : Nat) (c : Client) (err : String)
    (hv : flags.valid) (hclient : w.NewClient flags.token = Except.ok c)
    (hstat : w.Stat flags.key = some err) :
    main w flags fuel =
      Res.exit 1 { GLC := { Client := some c }
                   trace := [Event.NewClient flags.token, Event.Stat flags.key,
                     Event.fatal err] } := by
  obtain ⟨h1, h2, h3, h4⟩ := hv
  simp [main, h1, h2, h3, h4, logFatal, Res.andThen, State.emit, initGitlabClient,
    hclient, State.init, loadKeys, hstat]

theorem main_keys_error (w : World) (flags : Flags) (fuel : Nat) (c : Client) (err : String)
    (hv : flags.valid) (hclient : w.NewClient flags.token = Except.ok c)
    (hstat : w.Stat flags.key = none)
    (hkeys : w.NewPublicKeysFromFile "git" flags.key "" = Except.error err) :
    main w flags fuel =
      Res.exit 1 ((readyState flags c).extend [Event.fatal err]) := by
  obtain ⟨h1, h2, h3, h4⟩ := hv
  simp [main, h1, h2, h3, h4, logFatal, Res.andThen, State.emit, initGitlabClient,
    hclient, State.init, loadKeys, hstat, hkeys, readyState, State.extend]

theorem main_ready (w : World) (flags : Flags) (fuel : Nat) (c : Client) (keys : PublicKeys)
    (h : Ready w flags c keys) :
    main w flags fuel =
      (getAllProjects w fuel (readyState flags c)).andThen fun projects s =>
        cloneLoop w flags.dest flags.groupId keys projects s := by
  obtain ⟨⟨h1, h2, h3, h4⟩, hclient, hstat, hkeys⟩ := h
  simp [main, h1, h2, h3, h4, Res.andThen, State.emit, initGitlabClient,
    hclient, State.init, loadKeys, hstat, hkeys, readyState]

/-- Before the enumeration `main` either is ready or has exited with status 1
without a listing request or a clone. -/
theorem main_not_ready (w : World) (flags : Flags) (fuel : Nat)
    (h : ¬ ∃ c keys, Ready w flags c keys) :
    (main w flags fuel).exitStatus = some 1 ∧ cloneCalls (main w flags fuel).trace = [] ∧
      listRequests (main w flags fuel).trace = [] := by
  by_cases hv : flags.valid
  · cases hclient : w.NewClient flags.token with
    | error err =>
      rw [main_client_error w flags fuel err hv hclient]
      simp [Res.exitStatus, Res.trace, Res.state, State.extend, State.init, cloneCalls,
        listRequests]
    | ok c =>
      cases hstat : w.Stat flags.key with
      | some err =>
        rw [main_stat_error w flags fuel c err hv hclient hstat]
        simp [Res.exitStatus, Res.trace, Res.state, cloneCalls, listRequests]
      | none =>
        cases hkeys : w.NewPublicKeysFromFile "git" flags.key "" with
        | error err =>
          rw [main_keys_error w flags fuel c err hv hclient hstat hkeys]
          simp [Res.exitStatus, Res.trace, Res.state, State.extend, readyState, cloneCalls,
            listRequests]
        | ok keys => exact absurd ⟨c, keys, hv, hclient, hstat, hkeys⟩ h
  · rw [main_missing w flags fuel hv]
    simp [Res.exitStatus, Res.trace, Res.state, State.extend, State.init, cloneCalls,
      listRequests]

theorem readyState_client (flags : Flags) (c : Client) :
    (readyState flags c).GLC.Client = some c := rfl

theorem readyState_requests (flags : Flags) (c : Client) :
    (listRequests (readyState flags c).trace).length = 0 := rfl

theorem cloneCalls_after_fetch (flags : Flags) (c : Client) (n : Nat) :
    (cloneCalls ((readyState flags c).extend (fetchEvents 1 n)).trace).length = 0 := by
  simp [State.extend, cloneCalls_append, cloneCalls_fetchEvents, readyState, cloneCalls]

theorem main_ok (w : World) (flags : Flags) (fuel : Nat) (c : Client) (keys : PublicKeys)
    (ps : List (List ProjectPtr)) (hr : Ready w flags c keys) (he : Enumerates w c ps)
    (hns : ∀ d, d ∈ ps.flatten → (namespaceID d).isSome = true)
    (hcl : ClonesSucceed w 0 (expectedClones flags.dest flags.groupId keys ps.flatten)
      (expectedClones flags.dest flags.groupId keys ps.flatten).length)
    (hfuel : ps.length + 1 ≤ fuel) :
    main w flags fuel =
      Res.ok () ((readyState flags c).extend (fetchEvents 1 (ps.length + 1) ++
        cloneEvents flags.dest keys (matching flags.groupId ps.flatten))) := by
  rw [main_ready w flags fuel c keys hr,
    getAllProjects_ok w c ps (readyState flags c) fuel rfl he.1 he.2 hfuel]
  simp only [Res.andThen]
  rw [cloneLoop_ok w flags.dest flags.groupId keys ps.flatten _ hns
    (by rw [cloneCalls_after_fetch]; exact hcl), State.extend_extend]

theorem main_clone_error (w : World) (flags : Flags) (fuel : Nat) (c : Client)
    (keys : PublicKeys) (ps : List (List ProjectPtr)) (pre rest : List ProjectPtr) (k : Nat)
    (call : CloneCall) (err : String)
    (hr : Ready w flags c keys) (he : Enumerates w c ps) (hsplit : ps.flatten = pre ++ rest)
    (hns : ∀ d, d ∈ pre → (namespaceID d).isSome = true)
    (hcl : ClonesSucceed w 0 (expectedClones flags.dest flags.groupId keys pre) k)
    (hcall : (expectedClones flags.dest flags.groupId keys pre)[k]? = some call)
    (hfail : w.PlainClone (0 + k) call = some err)
    (hfuel : ps.length + 1 ≤ fuel) :
    main w flags fuel =
      Res.exit 1 ((readyState flags c).extend (fetchEvents 1 (ps.length + 1) ++
        (cloneEvents flags.dest keys ((matching flags.groupId pre).take (k + 1)) ++
          [Event.fatal err]))) := by
  rw [main_ready w flags fuel c keys hr,
    getAllProjects_ok w c ps (readyState flags c) fuel rfl he.1 he.2 hfuel]
  simp only [Res.andThen]
  rw [hsplit, cloneLoop_error w flags.dest flags.groupId keys err pre rest _ k call hns
    (by rw [cloneCalls_after_fetch]; exact hcl) hcall
    (by rw [cloneCalls_after_fetch]; exact hfail), State.extend_extend]

theorem main_panic (w : World) (flags : Flags) (fuel : Nat) (c : Client)
    (keys : PublicKeys) (ps : List (List ProjectPtr)) (pre : List ProjectPtr) (d : ProjectPtr)
    (rest : List ProjectPtr)
    (hr : Ready w flags c keys) (he : Enumerates w c ps)
    (hsplit : ps.flatten = pre ++ d :: rest)
    (hns : ∀ d2, d2 ∈ pre → (namespaceID d2).isSome = true) (hd : namespaceID d = none)
    (hcl : ClonesSucceed w 0 (expectedClones flags.dest flags.groupId keys pre)
      (expectedClones flags.dest flags.groupId keys pre).length)
    (hfuel : ps.length + 1 ≤ fuel) :
    main w flags fuel =
      Res.exit 2 ((readyState flags c).extend (fetchEvents 1 (ps.length + 1) ++
        (cloneEvents flags.dest keys (matching flags.groupId pre) ++
          [Event.nilDereference]))) := by
  rw [main_ready w flags fuel c keys hr,
    getAllProjects_ok w c ps (readyState flags c) fuel rfl he.1 he.2 hfuel]
  simp only [Res.andThen]
  rw [hsplit, cloneLoop_panic w flags.dest flags.groupId keys pre d rest _ hns hd
    (by rw [cloneCalls_after_fetch]; exact hcl), State.extend_extend]

theorem main_enum_error (w : World) (flags : Flags) (fuel : Nat) (c : Client)
    (keys : PublicKeys) (ps : List (List ProjectPtr)) (err : String)
    (hr : Ready w flags c keys) (hps : ServesPages w c 0 ps)
    (hlast : answer w c 0 ps.length = Except.error err) (hfuel : ps.length + 1 ≤ fuel) :
    main w flags fuel =
      Res.exit 1 ((readyState flags c).extend
        (fetchEvents 1 (ps.length + 1) ++ [Event.fatal err])) := by
  rw [main_ready w flags fuel c keys hr,
    getAllProjects_error w c ps (readyState flags c) fuel err rfl hps hlast hfuel]
  rfl

theorem main_running (w : World) (flags : Flags) (fuel : Nat) (c : Client)
    (keys : PublicKeys) (ps : List (List ProjectPtr))
    (hr : Ready w flags c keys) (hps : ServesPages w c 0 ps) (hfuel : fuel ≤ ps.length) :
    main w flags fuel = Res.running ((readyState flags c).extend (fetchEvents 1 fuel)) := by
  rw [main_ready w flags fuel c keys hr,
    getAllProjects_running_of_le w c ps (readyState flags c) fuel rfl hps hfuel]
  rfl

theorem listRequests_readyState_extend (flags : Flags) (c : Client) (es : List Event) :
    listRequests ((readyState flags c).extend es).trace = listRequests es := by
  simp [State.extend, listRequests_append, readyState, listRequests]

theorem cloneCalls_readyState_extend (flags : Flags) (c : Client) (es : List Event) :
    cloneCalls ((readyState flags c).extend es).trace = cloneCalls es := by
  simp [State.extend, cloneCalls_append, readyState, cloneCalls]

theorem listRequests_fetchEvents_one (n : Nat) :
    listRequests (fetchEvents 1 n) = pageRequests n := by
  rw [listRequests_fetchEvents, pageRequests]
  exact List.map_congr_left fun i _ => by rw [add_comm]

/-! ## The claims -/

/-- C1: when the server answers with non-empty pages `ps` and then with an empty
page (the first empty page is response number `n = ps.length + 1`), then for
every fuel of at least `n` iterations `getAllProjects` returns, and the listing
requests it has issued are exactly `n`: request `i` (from 1) carries `Page = i`
and `PerPage = 100`; nothing is requested after the empty page, and a page
stops the loop only when it is empty, whatever the length of the others. -/
theorem C1_requests_until_first_empty_page (w : World) (c : Client)
    (ps : List (List ProjectPtr)) (s : State) (fuel : Nat)
    (hc : s.GLC.Client = some c)
    (hps : ServesPages w c (listRequests s.trace).length ps)
    (hlast : answer w c (listRequests s.trace).length ps.length = Except.ok [])
    (hfuel : ps.length + 1 ≤ fuel) :
    (getAllProjects w fuel s).returned = some ps.flatten ∧
    listRequests (getAllProjects w fuel s).trace =
      listRequests s.trace ++ pageRequests (ps.length + 1) ∧
    (pageRequests (ps.length + 1)).length = ps.length + 1 ∧
    ∀ (i : Nat) (h : i < (pageRequests (ps.length + 1)).length),
      ((pageRequests (ps.length + 1)).get ⟨i, h⟩).Page = (i : Int) + 1 ∧
      ((pageRequests (ps.length + 1)).get ⟨i, h⟩).PerPage = 100 := by
  rw [getAllProjects_ok w c ps s fuel hc hps hlast hfuel]
  refine ⟨rfl, ?_, by simp [pageRequests], ?_⟩
  · simp [Res.trace, Res.state, State.extend, listRequests_append, listRequests_fetchEvents_one]
  · intro i h
    simp [pageRequests, pageRequest]

/-- C1, the scenario of the specification: page 1 has 100 items and page 2 has
none, so two requests are issued and 100 projects are returned; and a page of
one item does not stop the loop. -/
theorem C1_requests_until_first_empty_page_witness :
    ((getAllProjects
        (scriptedWorld [Except.ok (List.replicate 100 (listed "a" 42))] []) 2
        clientState).returned =
      some [List.replicate 100 (listed "a" 42)].flatten ∧
    listRequests (getAllProjects
        (scriptedWorld [Except.ok (List.replicate 100 (listed "a" 42))] []) 2
        clientState).trace =
      listRequests clientState.trace ++ pageRequests (1 + 1) ∧
    (pageRequests (1 + 1)).length = 1 + 1 ∧
    ∀ (i : Nat) (h : i < (pageRequests (1 + 1)).length),
      ((pageRequests (1 + 1)).get ⟨i, h⟩).Page = (i : Int) + 1 ∧
      ((pageRequests (1 + 1)).get ⟨i, h⟩).PerPage = 100) ∧
    (listRequests (getAllProjects
        (scriptedWorld [Except.ok (List.replicate 100 (listed "a" 42))] []) 2
        clientState).trace).length = 2 ∧
    ((getAllProjects
        (scriptedWorld [Except.ok (List.replicate 100 (listed "a" 42))] []) 2
        clientState).returned.map List.length) = some 100 ∧
    (listRequests (getAllProjects
        (scriptedWorld [Except.ok [listed "a" 42], Except.ok [listed "b" 7]] [])
        3 clientState).trace).length = 3 :=
  ⟨C1_requests_until_first_empty_page
      (scriptedWorld [Except.ok (List.replicate 100 (listed "a" 42))] [])
      exampleClient [List.replicate 100 (listed "a" 42)] clientState 2 rfl
      (fun i h => match i, h with
        | 0, _ => ⟨rfl, by simp⟩
        | i + 1, h => absurd h (by simp))
      rfl (by decide),
    rfl, rfl, rfl⟩

/-- C7: when the server answers with non-empty pages `p1 ... p(n-1)` and then with
the empty page `pn`, the list `getAllProjects` returns is `p1 ++ ... ++ p(n-1)`:
pages in the order returned, items in their order within the page, nothing
dropped or removed as a duplicate, and its length is the sum of the page
lengths. -/
theorem C7_result_is_concatenation_of_pages (w : World) (c : Client)
    (ps : List (List ProjectPtr)) (s : State) (fuel : Nat)
    (hc : s.GLC.Client = some c)
    (hps : ServesPages w c (listRequests s.trace).length ps)
    (hlast : answer w c (listRequests s.trace).length ps.length = Except.ok [])
    (hfuel : ps.length + 1 ≤ fuel) :
    (getAllProjects w fuel s).returned = some (ps.foldr (fun p acc => p ++ acc) []) ∧
    ((getAllProjects w fuel s).returned.map List.length) = some (ps.map List.length).sum := by
  rw [getAllProjects_ok w c ps s fuel hc hps hlast hfuel]
  have hfold : ∀ qs : List (List ProjectPtr), qs.foldr (fun p acc => p ++ acc) [] = qs.flatten := by
    intro qs
    induction qs with
    | nil => rfl
    | cons q qs ih => simp [ih]
  refine ⟨by simp [Res.returned, hfold], ?_⟩
  simp [Res.returned, List.length_flatten]

/-- C7, a project that is on two pages is twice in the result: the pages `[a, b]`,
`[a]` and then the empty page give `[a, b, a]`. -/
theorem C7_result_is_concatenation_of_pages_witness :
    (getAllProjects
        (scriptedWorld [Except.ok [listed "a" 42, listed "b" 7],
          Except.ok [listed "a" 42]] []) 3 clientState).returned =
      some ([[listed "a" 42, listed "b" 7], [listed "a" 42]].foldr
        (fun p acc => p ++ acc) []) ∧
    ((getAllProjects
        (scriptedWorld [Except.ok [listed "a" 42, listed "b" 7],
          Except.ok [listed "a" 42]] []) 3 clientState).returned.map List.length) =
      some ([[listed "a" 42, listed "b" 7], [listed "a" 42]].map
        List.length).sum :=
  C7_result_is_concatenation_of_pages
    (scriptedWorld [Except.ok [listed "a" 42, listed "b" 7],
      Except.ok [listed "a" 42]] [])
    exampleClient [[listed "a" 42, listed "b" 7], [listed "a" 42]]
    clientState 3 rfl
    (fun i h => match i, h with
      | 0, _ => ⟨rfl, by simp⟩
      | 1, _ => ⟨rfl, by simp⟩
      | i + 2, h => absurd h (by simp))
    rfl (by decide)

/-- C10: the enumeration loop has no iteration cap of its own.  From a state with
the client set: (1) the loop terminates for some amount of fuel if and only if
the answer to some request is an empty page or an error; (2) when every answer
is a non-empty page the loop is still iterating after any number of
iterations, having issued one request per iteration, so more than `N` requests
for every `N`; (3) when the answer to request `n + 1` is the first that is empty
or failing, the loop is still iterating after `n` iterations or fewer and has
terminated after exactly `n + 1` requests for every larger amount of fuel. -/
theorem C10_loop_ends_only_on_empty_page_or_error (w : World) (c : Client) (s : State)
    (hc : s.GLC.Client = some c) :
    ((∃ fuel, (getAllProjects w fuel s).isRunning = false) ↔
      ∃ n, Stops w c (listRequests s.trace).length n) ∧
    ((∀ n, ¬ Stops w c (listRequests s.trace).length n) →
      ∀ fuel, (getAllProjects w fuel s).isRunning = true ∧
        (listRequests (getAllProjects w fuel s).trace).length =
          (listRequests s.trace).length + fuel) ∧
    (∀ n, (∀ i, i < n → ¬ Stops w c (listRequests s.trace).length i) →
      Stops w c (listRequests s.trace).length n →
      ∀ fuel,
        (fuel ≤ n → (getAllProjects w fuel s).isRunning = true) ∧
        (n + 1 ≤ fuel → (getAllProjects w fuel s).isRunning = false ∧
          (listRequests (getAllProjects w fuel s).trace).length =
            (listRequests s.trace).length + (n + 1))) := by
  have hnever : (∀ n, ¬ Stops w c (listRequests s.trace).length n) →
      ∀ fuel, (getAllProjects w fuel s).isRunning = true ∧
        (listRequests (getAllProjects w fuel s).trace).length =
          (listRequests s.trace).length + fuel := by
    intro h fuel
    rw [getAllProjects_never w c s fuel hc h]
    simp [Res.isRunning, Res.trace, Res.state, State.extend, listRequests_append,
      listRequests_fetchEvents]
  have hfirst : ∀ n, (∀ i, i < n → ¬ Stops w c (listRequests s.trace).length i) →
      Stops w c (listRequests s.trace).length n →
      ∀ fuel,
        (fuel ≤ n → (getAllProjects w fuel s).isRunning = true) ∧
        (n + 1 ≤ fuel → (getAllProjects w fuel s).isRunning = false ∧
          (listRequests (getAllProjects w fuel s).trace).length =
            (listRequests s.trace).length + (n + 1)) := by
    intro n hbefore hstop fuel
    have hps := servesPages_pagesUpTo w c (listRequests s.trace).length n hbefore
    have hlen := length_pagesUpTo w c (listRequests s.trace).length n
    constructor
    · intro hfuel
      rw [getAllProjects_running_of_le w c _ s fuel hc hps (by rw [hlen]; exact hfuel)]
      rfl
    · intro hfuel
      rcases hstop with h0 | ⟨err, h0⟩
      · rw [getAllProjects_ok w c _ s fuel hc hps (by rw [hlen]; exact h0)
          (by rw [hlen]; exact hfuel)]
        simp [Res.isRunning, Res.trace, Res.state, State.extend, listRequests_append,
          listRequests_fetchEvents, hlen]
      · rw [getAllProjects_error w c _ s fuel err hc hps (by rw [hlen]; exact h0)
          (by rw [hlen]; exact hfuel)]
        simp [Res.isRunning, Res.trace, Res.state, State.extend, listRequests_append,
          listRequests_fetchEvents, hlen, listRequests]
  refine ⟨⟨?_, ?_⟩, hnever, hfirst⟩
  · rintro ⟨fuel, hfuel⟩
    by_contra hno
    have := (hnever (fun n hn => hno ⟨n, hn⟩) fuel).1
    rw [hfuel] at this
    exact Bool.noConfusion this
  · intro h
    classical
    exact ⟨Nat.find h + 1,
      ((hfirst (Nat.find h) (fun i hi => Nat.find_min h hi) (Nat.find_spec h)
        (Nat.find h + 1)).2 (Nat.le_refl _)).1⟩

/-- C10, on a server that always returns one project and on one whose third
answer is an error. -/
theorem C10_loop_ends_only_on_empty_page_or_error_witness :
    (((∃ fuel, (getAllProjects endlessWorld fuel clientState).isRunning = false) ↔
      ∃ n, Stops endlessWorld exampleClient (listRequests clientState.trace).length n) ∧
    ((∀ n, ¬ Stops endlessWorld exampleClient (listRequests clientState.trace).length n) →
      ∀ fuel, (getAllProjects endlessWorld fuel clientState).isRunning = true ∧
        (listRequests (getAllProjects endlessWorld fuel clientState).trace).length =
          (listRequests clientState.trace).length + fuel) ∧
    (∀ n, (∀ i, i < n →
        ¬ Stops endlessWorld exampleClient (listRequests clientState.trace).length i) →
      Stops endlessWorld exampleClient (listRequests clientState.trace).length n →
      ∀ fuel,
        (fuel ≤ n → (getAllProjects endlessWorld fuel clientState).isRunning = true) ∧
        (n + 1 ≤ fuel → (getAllProjects endlessWorld fuel clientState).isRunning = false ∧
          (listRequests (getAllProjects endlessWorld fuel clientState).trace).length =
            (listRequests clientState.trace).length + (n + 1)))) ∧
    (getAllProjects endlessWorld 7 clientState).isRunning = true ∧
    (listRequests (getAllProjects endlessWorld 7 clientState).trace).length = 7 ∧
    (getAllProjects (scriptedWorld [Except.ok [listed "a" 42],
      Except.ok [listed "b" 7], Except.error "502"] []) 2 clientState).isRunning = true ∧
    (getAllProjects (scriptedWorld [Except.ok [listed "a" 42],
      Except.ok [listed "b" 7], Except.error "502"] []) 9 clientState).isRunning = false ∧
    (listRequests (getAllProjects (scriptedWorld [Except.ok [listed "a" 42],
      Except.ok [listed "b" 7], Except.error "502"] []) 9 clientState).trace).length = 3 :=
  ⟨C10_loop_ends_only_on_empty_page_or_error endlessWorld exampleClient clientState rfl,
    rfl, rfl, rfl, rfl, rfl⟩

/-- C5: when `main` has reached the enumeration and the server answers with the
non-empty pages `ps` and then request `m = ps.length + 1` fails, then for every
fuel of at least `m` iterations `getAllProjects` has issued exactly the
requests for the pages `1` to `m`, once each, returns nothing to its caller and
ends the process with status 1, and `main` has made no clone invocation,
whatever projects the pages `ps` held. -/
theorem C5_request_error_is_fatal (w : World) (flags : Flags) (c : Client) (keys : PublicKeys)
    (ps : List (List ProjectPtr)) (err : String) (fuel : Nat)
    (hr : Ready w flags c keys) (hps : ServesPages w c 0 ps)
    (hlast : answer w c 0 ps.length = Except.error err) (hfuel : ps.length + 1 ≤ fuel) :
    (getAllProjects w fuel (readyState flags c)).returned = none ∧
    (getAllProjects w fuel (readyState flags c)).exitStatus = some 1 ∧
    listRequests (getAllProjects w fuel (readyState flags c)).trace =
      pageRequests (ps.length + 1) ∧
    (main w flags fuel).exitStatus = some 1 ∧
    listRequests (main w flags fuel).trace = pageRequests (ps.length + 1) ∧
    cloneCalls (main w flags fuel).trace = [] := by
  rw [main_enum_error w flags fuel c keys ps err hr hps hlast hfuel,
    getAllProjects_error w c ps (readyState flags c) fuel err rfl hps hlast hfuel]
  have hreq : listRequests ((readyState flags c).extend
      (fetchEvents 1 (ps.length + 1) ++ [Event.fatal err])).trace =
      pageRequests (ps.length + 1) := by
    rw [listRequests_readyState_extend, listRequests_append, listRequests_fetchEvents_one]
    simp [listRequests]
  have hclone : cloneCalls ((readyState flags c).extend
      (fetchEvents 1 (ps.length + 1) ++ [Event.fatal err])).trace = [] := by
    rw [cloneCalls_readyState_extend, cloneCalls_append, cloneCalls_fetchEvents]
    simp [cloneCalls]
  exact ⟨rfl, rfl, hreq, rfl, hreq, hclone⟩

/-- C5, on a server whose first page holds two matching projects and whose second
request fails. -/
theorem C5_request_error_is_fatal_witness :
    (getAllProjects
      (scriptedWorld [Except.ok [listed "a" 42, listed "c" 42],
        Except.error "500"] []) 5 (readyState exampleFlags exampleClient)).returned = none ∧
    (getAllProjects
      (scriptedWorld [Except.ok [listed "a" 42, listed "c" 42],
        Except.error "500"] []) 5 (readyState exampleFlags exampleClient)).exitStatus = some 1 ∧
    listRequests (getAllProjects
      (scriptedWorld [Except.ok [listed "a" 42, listed "c" 42],
        Except.error "500"] []) 5 (readyState exampleFlags exampleClient)).trace =
      pageRequests (1 + 1) ∧
    (main (scriptedWorld [Except.ok [listed "a" 42, listed "c" 42],
        Except.error "500"] []) exampleFlags 5).exitStatus = some 1 ∧
    listRequests (main (scriptedWorld [Except.ok [listed "a" 42, listed "c" 42],
        Except.error "500"] []) exampleFlags 5).trace = pageRequests (1 + 1) ∧
    cloneCalls (main (scriptedWorld [Except.ok [listed "a" 42, listed "c" 42],
        Except.error "500"] []) exampleFlags 5).trace = [] :=
  C5_request_error_is_fatal
    (scriptedWorld [Except.ok [listed "a" 42, listed "c" 42],
      Except.error "500"] [])
    exampleFlags exampleClient exampleKeys [[listed "a" 42, listed "c" 42]]
    "500" 5 ⟨by decide, rfl, rfl, rfl⟩
    (fun i h => match i, h with
      | 0, _ => ⟨rfl, by simp⟩
      | i + 1, h => absurd h (by simp))
    rfl (by decide)

/-- C3: when at least one of the four flags is missing (an empty string, or 0 for
`groupid`), `main` ends the process with status 1 whatever the world is; all it
has done is print one message, the one for the first missing flag, so the
message names a flag that is missing; no call to `gitlab.NewClient`,
`os.Stat`, the key loader, `ListProjects` or `git.PlainClone` has been made. -/
theorem C3_missing_flag_is_fatal_before_any_call (w : World) (flags : Flags) (fuel : Nat)
    (h : flags.token = "" ∨ flags.dest = "" ∨ flags.groupId = 0 ∨ flags.key = "") :
    (main w flags fuel).exitStatus = some 1 ∧
    (∃ msg, (main w flags fuel).trace = [Event.fatal msg] ∧
      ((flags.token = "" ∧ msg = "Please set gitlab token with -token=glpat-xxxxx") ∨
       (flags.dest = "" ∧ msg = "Please set destination with -dest=/home/Test/git") ∨
       (flags.groupId = 0 ∧ msg = "Please set groupID  with -groupid=1020304") ∨
       (flags.key = "" ∧ msg = "Please set SSH private key path with -key=file.pem"))) ∧
    (main w flags fuel).trace.filter Event.isExternalCall = [] ∧
    listRequests (main w flags fuel).trace = [] ∧
    cloneCalls (main w flags fuel).trace = [] := by
  have hv : ¬ flags.valid := by
    unfold Flags.valid
    rintro ⟨h1, h2, h3, h4⟩
    rcases h with h | h | h | h
    · exact h1 h
    · exact h2 h
    · exact h3 h
    · exact h4 h
  rw [main_missing w flags fuel hv]
  refine ⟨rfl, ⟨missingMessage flags, rfl, ?_⟩, rfl, rfl, rfl⟩
  unfold missingMessage
  by_cases h1 : flags.token = ""
  · simp [h1]
  by_cases h2 : flags.dest = ""
  · simp [h1, h2]
  by_cases h3 : flags.groupId = 0
  · simp [h1, h2, h3]
  have h4 : flags.key = "" := by
    rcases h with h | h | h | h
    · exact absurd h h1
    · exact absurd h h2
    · exact absurd h h3
    · exact h
  simp [h1, h2, h3, h4]

/-- C3, with only the group identifier missing. -/
theorem C3_missing_flag_is_fatal_before_any_call_witness :
    (main endlessWorld { token := "glpat-x", dest := "/tmp/out", groupId := 0, key := "id_rsa" }
      3).trace = [Event.fatal "Please set groupID  with -groupid=1020304"] ∧
    (main endlessWorld { token := "glpat-x", dest := "/tmp/out", groupId := 0, key := "id_rsa" }
      3).exitStatus = some 1 :=
  ⟨rfl,
    (C3_missing_flag_is_fatal_before_any_call endlessWorld
      { token := "glpat-x", dest := "/tmp/out", groupId := 0, key := "id_rsa" } 3
      (Or.inr (Or.inr (Or.inl rfl)))).1⟩

/-- C6: when `os.Stat` fails on the key path, or the file exists and
`ssh.NewPublicKeysFromFile` returns an error, `main` ends the process with
status 1 and has made no clone invocation, whatever the world (and so whatever
projects the server would list) and whatever the flags.  In the first case
`loadKeys` itself ends the process; in the second `loadKeys` returns that error
to its caller. -/
theorem C6_key_failure_is_fatal_before_any_clone (w : World) (flags : Flags) (fuel : Nat)
    (s : State)
    (h : (∃ err, w.Stat flags.key = some err) ∨
      (w.Stat flags.key = none ∧
        ∃ err, w.NewPublicKeysFromFile "git" flags.key "" = Except.error err)) :
    (main w flags fuel).exitStatus = some 1 ∧
    cloneCalls (main w flags fuel).trace = [] ∧
    (∀ err, w.Stat flags.key = some err →
      (loadKeys w flags.key s).exitStatus = some 1 ∧ (loadKeys w flags.key s).returned = none ∧
      cloneCalls (loadKeys w flags.key s).trace = cloneCalls s.trace) ∧
    (∀ err, w.Stat flags.key = none →
      w.NewPublicKeysFromFile "git" flags.key "" = Except.error err →
      (loadKeys w flags.key s).returned = some (Except.error err)) := by
  have hnot : ¬ ∃ c keys, Ready w flags c keys := by
    rintro ⟨c, keys, _, _, hstat, hkeys⟩
    rcases h with ⟨err, h⟩ | ⟨_, err, h⟩
    · rw [hstat] at h
      exact Option.noConfusion h
    · rw [hkeys] at h
      exact Except.noConfusion h
  have hmain := main_not_ready w flags fuel hnot
  refine ⟨hmain.1, hmain.2.1, ?_, ?_⟩
  · intro err herr
    simp [loadKeys, herr, logFatal, Res.exitStatus, Res.returned, Res.trace, Res.state,
      State.emit, cloneCalls_append, cloneCalls]
  · intro err hstat herr
    simp [loadKeys, hstat, herr, Res.returned]

/-- C6, with a key file that does not exist, on a server with a matching project. -/
theorem C6_key_failure_is_fatal_before_any_clone_witness :
    (main { scriptedWorld [Except.ok [listed "a" 42]] [] with
        Stat := fun _ => some "stat id_rsa: no such file or directory" }
      exampleFlags 4).exitStatus = some 1 ∧
    cloneCalls (main { scriptedWorld [Except.ok [listed "a" 42]] [] with
        Stat := fun _ => some "stat id_rsa: no such file or directory" }
      exampleFlags 4).trace = [] :=
  ⟨(C6_key_failure_is_fatal_before_any_clone
      { scriptedWorld [Except.ok [listed "a" 42]] [] with
        Stat := fun _ => some "stat id_rsa: no such file or directory" }
      exampleFlags 4 State.init (Or.inl ⟨_, rfl⟩)).1,
    rfl⟩

/-- C2 as amended: when `main` has reached the enumeration and the enumeration
returns the list `ps.flatten`, the clone invocations `main` makes are always a
prefix of the invocations for the projects of the list whose `Namespace.ID`
equals the `groupid` flag, in the order of the list, one for each: destination
path `dest ++ "/" ++ project.Name`, URL `project.SSHURLToRepo`, the loaded key
pair as `Auth`; so a project with another `Namespace.ID` gets no invocation.
When every project of the list is there with its namespace (no nil pointer)
and all clones succeed, the invocations are exactly these and `main` returns
normally. -/
theorem C2_clones_are_the_matching_projects_in_order (w : World) (flags : Flags) (c : Client)
    (keys : PublicKeys) (ps : List (List ProjectPtr)) (fuel : Nat)
    (hr : Ready w flags c keys) (he : Enumerates w c ps) (hfuel : ps.length + 1 ≤ fuel) :
    expectedClones flags.dest flags.groupId keys ps.flatten =
      (ps.flatten.reduceOption.filter fun project =>
          project.Namespace.map (fun ns => ns.ID) = some flags.groupId).map
        (fun project =>
          { path := flags.dest ++ "/" ++ project.Name
            isBare := false
            o := { URL := project.SSHURLToRepo, Progress := some Writer.Stdout,
                   Auth := some keys } }) ∧
    cloneCalls (main w flags fuel).trace <+:
      expectedClones flags.dest flags.groupId keys ps.flatten ∧
    ((∀ project, project ∈ ps.flatten → Namespaced project) →
      ClonesSucceed w 0 (expectedClones flags.dest flags.groupId keys ps.flatten)
        (expectedClones flags.dest flags.groupId keys ps.flatten).length →
      cloneCalls (main w flags fuel).trace =
        expectedClones flags.dest flags.groupId keys ps.flatten ∧
      (main w flags fuel).exitStatus = some 0) := by
  have hok : (∀ project, project ∈ ps.flatten → Namespaced project) →
      ClonesSucceed w 0 (expectedClones flags.dest flags.groupId keys ps.flatten)
        (expectedClones flags.dest flags.groupId keys ps.flatten).length →
      cloneCalls (main w flags fuel).trace =
        expectedClones flags.dest flags.groupId keys ps.flatten ∧
      (main w flags fuel).exitStatus = some 0 := by
    intro hns hcl
    rw [main_ok w flags fuel c keys ps hr he
      (fun d hd => (namespaced_iff d).mp (hns d hd)) hcl hfuel]
    refine ⟨?_, rfl⟩
    simp only [Res.trace, Res.state]
    rw [cloneCalls_readyState_extend, cloneCalls_append, cloneCalls_fetchEvents,
      cloneCalls_cloneEvents, List.nil_append, expectedClones]
  refine ⟨rfl, ?_, hok⟩
  have hcalls_error : ∀ (pre rest : List ProjectPtr) (k : Nat) (call : CloneCall)
      (err : String), ps.flatten = pre ++ rest →
      (∀ d, d ∈ pre → (namespaceID d).isSome = true) →
      ClonesSucceed w 0 (expectedClones flags.dest flags.groupId keys pre) k →
      (expectedClones flags.dest flags.groupId keys pre)[k]? = some call →
      w.PlainClone (0 + k) call = some err →
      cloneCalls (main w flags fuel).trace <+:
        expectedClones flags.dest flags.groupId keys ps.flatten := by
    intro pre rest k call err hsplit hns hcl hcall hfail
    rw [main_clone_error w flags fuel c keys ps pre rest k call err hr he hsplit hns hcl hcall
      hfail hfuel]
    simp only [Res.trace, Res.state]
    rw [cloneCalls_readyState_extend, cloneCalls_append, cloneCalls_fetchEvents,
      cloneCalls_append, cloneCalls_cloneEvents, List.nil_append, hsplit,
      expectedClones_append, expectedClones, List.map_take]
    simp only [cloneCalls, List.append_nil]
    exact (List.take_prefix _ _).trans (List.prefix_append _ _)
  rcases namespacedPrefix_split ps.flatten with ⟨hall, _⟩ | ⟨d, rest, hd, hsplit⟩
  · rcases clones_cases w 0 (expectedClones flags.dest flags.groupId keys ps.flatten) with
      hcl | ⟨k, call, err, hcl, hcall, hfail⟩
    · rw [(hok (fun x hx => (namespaced_iff x).mpr (hall x hx)) hcl).1]
    · exact hcalls_error ps.flatten [] k call err (List.append_nil _).symm hall hcl hcall hfail
  · rcases clones_cases w 0
        (expectedClones flags.dest flags.groupId keys (namespacedPrefix ps.flatten)) with
      hcl | ⟨k, call, err, hcl, hcall, hfail⟩
    · rw [main_panic w flags fuel c keys ps (namespacedPrefix ps.flatten) d rest hr he hsplit
        (namespacedPrefix_namespaced ps.flatten) hd hcl hfuel]
      simp only [Res.trace, Res.state]
      rw [cloneCalls_readyState_extend, cloneCalls_append, cloneCalls_fetchEvents,
        cloneCalls_append, cloneCalls_cloneEvents, List.nil_append]
      simp only [cloneCalls, List.append_nil]
      have hexp : expectedClones flags.dest flags.groupId keys ps.flatten =
          expectedClones flags.dest flags.groupId keys (namespacedPrefix ps.flatten) ++
            expectedClones flags.dest flags.groupId keys (d :: rest) := by
        rw [← expectedClones_append, ← hsplit]
      rw [hexp]
      exact List.prefix_append _ _
    · exact hcalls_error (namespacedPrefix ps.flatten) (d :: rest) k call err hsplit
        (namespacedPrefix_namespaced ps.flatten) hcl hcall hfail

/-- C2 as amended, the scenario of the specification: `dest=/tmp/out`,
`groupid=42` and the projects `a` (group 42), `b` (group 7), `c` (group 42) give the
two clones `a` into `/tmp/out/a` and `c` into `/tmp/out/c`, in this order. -/
theorem C2_clones_are_the_matching_projects_in_order_witness :
    cloneCalls (main (scriptedWorld [Except.ok [listed "a" 42, listed "b" 7,
        listed "c" 42]] []) exampleFlags 2).trace =
      [{ path := "/tmp/out/a", isBare := false,
         o := { URL := "git@gitlab.example:g/a.git", Progress := some Writer.Stdout,
                Auth := some exampleKeys } },
       { path := "/tmp/out/c", isBare := false,
         o := { URL := "git@gitlab.example:g/c.git", Progress := some Writer.Stdout,
                Auth := some exampleKeys } }] :=
  ((C2_clones_are_the_matching_projects_in_order
      (scriptedWorld [Except.ok [listed "a" 42, listed "b" 7, listed "c" 42]] [])
      exampleFlags exampleClient exampleKeys
      [[listed "a" 42, listed "b" 7, listed "c" 42]] 2
      ⟨by decide, rfl, rfl, rfl⟩
      ⟨fun i h => match i, h with
        | 0, _ => ⟨rfl, by simp⟩
        | i + 1, h => absurd h (by simp), rfl⟩
      (by decide)).2.2
    (fun project h => by
      simp only [List.flatten_cons, List.flatten_nil, List.append_nil, List.mem_cons,
        List.mem_singleton, List.not_mem_nil, or_false] at h
      rcases h with rfl | rfl | rfl
      · exact ⟨_, _, rfl, rfl⟩
      · exact ⟨_, _, rfl, rfl⟩
      · exact ⟨_, _, rfl, rfl⟩)
    (fun _ _ _ _ => rfl)).1.trans rfl

/-- C2 as stated fails on a listing with a project that has no namespace: the
enumeration returns `[x, a]` with `a` in group 42, every clone would succeed,
and `main` panics at `x` (exit status 2) without the clone of `a`. -/
theorem C2_counterexample_project_without_namespace :
    (getAllProjects (scriptedWorld [Except.ok [orphan, listed "a" 42]] []) 2
      (readyState exampleFlags exampleClient)).returned = some [orphan, listed "a" 42] ∧
    expectedClones "/tmp/out" 42 exampleKeys [orphan, listed "a" 42] =
      [expectedClone "/tmp/out" exampleKeys (exampleProject "a" 42)] ∧
    cloneCalls (main (scriptedWorld [Except.ok [orphan, listed "a" 42]] [])
      exampleFlags 2).trace = [] ∧
    (main (scriptedWorld [Except.ok [orphan, listed "a" 42]] []) exampleFlags 2).exitStatus =
      some 2 ∧
    cloneCalls (main (scriptedWorld [Except.ok [orphan, listed "a" 42]] [])
      exampleFlags 2).trace ≠ expectedClones "/tmp/out" 42 exampleKeys [orphan, listed "a" 42] :=
  ⟨rfl, rfl, rfl, rfl, by decide⟩

/-- C4: when `main` has reached the clone loop with the enumerated projects
`ps.flatten`, the clone of matching project number `k + 1` is attempted (it
lies before any project whose pointer or namespace is nil), the clones of the
first `k` matching projects succeed and this one fails, then `main` ends the
process with status 1 having made exactly `k + 1` clone invocations, those of
the first `k + 1` matching projects in order; no clone is attempted for a later
matching project. -/
theorem C4_clone_failure_stops_the_batch (w : World) (flags : Flags) (c : Client)
    (keys : PublicKeys) (ps : List (List ProjectPtr)) (k : Nat) (call : CloneCall) (err : String)
    (fuel : Nat) (hr : Ready w flags c keys) (he : Enumerates w c ps)
    (hbefore : ClonesSucceed w 0
      (expectedClones flags.dest flags.groupId keys (namespacedPrefix ps.flatten)) k)
    (hcall : (expectedClones flags.dest flags.groupId keys
      (namespacedPrefix ps.flatten))[k]? = some call)
    (hfail : w.PlainClone k call = some err) (hfuel : ps.length + 1 ≤ fuel) :
    (main w flags fuel).exitStatus = some 1 ∧
    cloneCalls (main w flags fuel).trace =
      (expectedClones flags.dest flags.groupId keys ps.flatten).take (k + 1) ∧
    (cloneCalls (main w flags fuel).trace).length = k + 1 := by
  obtain ⟨rest, hsplit⟩ := namespacedPrefix_append_rest ps.flatten
  have hlt : k <
      (expectedClones flags.dest flags.groupId keys (namespacedPrefix ps.flatten)).length := by
    by_contra hge
    rw [List.getElem?_eq_none (Nat.le_of_not_lt hge)] at hcall
    exact Option.noConfusion hcall
  have hmain := main_clone_error w flags fuel c keys ps (namespacedPrefix ps.flatten) rest k
    call err hr he hsplit (namespacedPrefix_namespaced ps.flatten) hbefore hcall
    (by rw [Nat.zero_add]; exact hfail) hfuel
  have hexp : expectedClones flags.dest flags.groupId keys ps.flatten =
      expectedClones flags.dest flags.groupId keys (namespacedPrefix ps.flatten) ++
        expectedClones flags.dest flags.groupId keys rest := by
    rw [← expectedClones_append, ← hsplit]
  have hcalls : cloneCalls (main w flags fuel).trace =
      (expectedClones flags.dest flags.groupId keys ps.flatten).take (k + 1) := by
    rw [hmain]
    simp only [Res.trace, Res.state]
    rw [cloneCalls_readyState_extend, cloneCalls_append, cloneCalls_fetchEvents,
      cloneCalls_append, cloneCalls_cloneEvents, List.nil_append, hexp,
      List.take_append_of_le_length (Nat.succ_le_of_lt hlt), expectedClones, List.map_take]
    simp only [cloneCalls, List.append_nil]
  refine ⟨?_, hcalls, ?_⟩
  · rw [hmain]
    rfl
  · rw [hcalls, List.length_take, hexp, List.length_append]
    omega

/-- C4, the scenario of the specification: of three matching projects the clone
of the second fails, and the third is never cloned; a project without a
namespace behind the failing one changes nothing. -/
theorem C4_clone_failure_stops_the_batch_witness :
    (main (scriptedWorld [Except.ok [listed "a" 42, listed "b" 42,
        listed "c" 42]] [none, some "exit status 128"]) exampleFlags 2).exitStatus =
      some 1 ∧
    cloneCalls (main (scriptedWorld [Except.ok [listed "a" 42, listed "b" 42,
        listed "c" 42]] [none, some "exit status 128"]) exampleFlags 2).trace =
      [expectedClone "/tmp/out" exampleKeys (exampleProject "a" 42),
       expectedClone "/tmp/out" exampleKeys (exampleProject "b" 42)] ∧
    (main (scriptedWorld [Except.ok [listed "a" 42, listed "b" 42, orphan,
        listed "c" 42]] [none, some "exit status 128"]) exampleFlags 2).exitStatus =
      some 1 :=
  ⟨(C4_clone_failure_stops_the_batch
      (scriptedWorld [Except.ok [listed "a" 42, listed "b" 42,
        listed "c" 42]] [none, some "exit status 128"])
      exampleFlags exampleClient exampleKeys
      [[listed "a" 42, listed "b" 42, listed "c" 42]] 1
      (expectedClone "/tmp/out" exampleKeys (exampleProject "b" 42)) "exit status 128" 2
      ⟨by decide, rfl, rfl, rfl⟩
      ⟨fun i h => match i, h with
        | 0, _ => ⟨rfl, by simp⟩
        | i + 1, h => absurd h (by simp), rfl⟩
      (fun i _ hi _ => match i, hi with
        | 0, _ => rfl
        | i + 1, hi => absurd hi (by simp))
      rfl rfl (by decide)).1,
    rfl,
    (C4_clone_failure_stops_the_batch
      (scriptedWorld [Except.ok [listed "a" 42, listed "b" 42, orphan,
        listed "c" 42]] [none, some "exit status 128"])
      exampleFlags exampleClient exampleKeys
      [[listed "a" 42, listed "b" 42, orphan, listed "c" 42]] 1
      (expectedClone "/tmp/out" exampleKeys (exampleProject "b" 42)) "exit status 128" 2
      ⟨by decide, rfl, rfl, rfl⟩
      ⟨fun i h => match i, h with
        | 0, _ => ⟨rfl, by simp⟩
        | i + 1, h => absurd h (by simp), rfl⟩
      (fun i _ hi _ => match i, hi with
        | 0, _ => rfl
        | i + 1, hi => absurd hi (by simp))
      rfl rfl (by decide)).1⟩

theorem ready_unique (w : World) (flags : Flags) (c c2 : Client) (keys keys2 : PublicKeys)
    (h : Ready w flags c keys) (h2 : Ready w flags c2 keys2) : c = c2 ∧ keys = keys2 := by
  obtain ⟨_, hc, _, hk⟩ := h
  obtain ⟨_, hc2, _, hk2⟩ := h2
  rw [hc] at hc2
  rw [hk] at hk2
  exact ⟨Except.ok.inj hc2, Except.ok.inj hk2⟩

/-- The pages before the first answer that ends the enumeration are determined by
the server. -/
theorem pages_unique (w : World) (c : Client) (base : Nat) (ps qs : List (List ProjectPtr))
    (hps : ServesPages w c base ps) (hp : Stops w c base ps.length)
    (hqs : ServesPages w c base qs) (hq : Stops w c base qs.length) : ps = qs := by
  have hlen : ps.length = qs.length := by
    rcases Nat.lt_trichotomy ps.length qs.length with h | h | h
    · exact absurd hp (servesPages_not_stops w c base qs hqs _ h)
    · exact h
    · exact absurd hq (servesPages_not_stops w c base ps hps _ h)
  rw [servesPages_eq w c base ps hps, servesPages_eq w c base qs hqs, hlen]

/-- The runs of `main`, by the amount of fuel: a successful world returns
normally once the fuel covers the enumeration; any other world exits with a
non-zero status once the fuel covers what it enumerates, or has a server that
never ends the enumeration and is still iterating for every amount of fuel. -/
theorem main_cases (w : World) (flags : Flags) :
    (Succeeds w flags ∧ ∃ n, ∀ fuel,
      (n ≤ fuel → (main w flags fuel).exitStatus = some 0) ∧
      (fuel < n → (main w flags fuel).exitStatus = none)) ∨
    (¬ Succeeds w flags ∧ ∃ n, ∀ fuel,
      (n ≤ fuel → ∃ code, (main w flags fuel).exitStatus = some code ∧ code ≠ 0) ∧
      (fuel < n → (main w flags fuel).exitStatus = none)) ∨
    (¬ Succeeds w flags ∧ (∀ fuel, (main w flags fuel).exitStatus = none)) := by
  by_cases hready : ∃ c keys, Ready w flags c keys
  · obtain ⟨c, keys, hr⟩ := hready
    rcases enumeration_cases w c 0 with ⟨ps, hps, hlast⟩ | ⟨ps, err, hps, hlast⟩ | hnever
    · have hbelow : ∀ fuel, fuel < ps.length + 1 → (main w flags fuel).exitStatus = none := by
        intro fuel hfuel
        rw [main_running w flags fuel c keys ps hr hps (Nat.lt_succ_iff.mp hfuel)]
        rfl
      have hfails : ∀ (pre rest : List ProjectPtr) (k : Nat) (call : CloneCall) (err : String),
          ps.flatten = pre ++ rest → (∀ d, d ∈ pre → (namespaceID d).isSome = true) →
          ClonesSucceed w 0 (expectedClones flags.dest flags.groupId keys pre) k →
          (expectedClones flags.dest flags.groupId keys pre)[k]? = some call →
          w.PlainClone (0 + k) call = some err →
          ¬ Succeeds w flags ∧ ∃ n, ∀ fuel,
            (n ≤ fuel → ∃ code, (main w flags fuel).exitStatus = some code ∧ code ≠ 0) ∧
            (fuel < n → (main w flags fuel).exitStatus = none) := by
        intro pre rest k call err hsplit hns hcl hcall hfail
        refine ⟨?_, ps.length + 1, fun fuel => ⟨?_, hbelow fuel⟩⟩
        · rintro ⟨c2, keys2, qs, hr2, ⟨hqs, hqlast⟩, _, hcl2⟩
          obtain ⟨rfl, rfl⟩ := ready_unique w flags c c2 keys keys2 hr hr2
          have hpq : ps = qs := pages_unique w c 0 ps qs hps (Or.inl hlast) hqs (Or.inl hqlast)
          subst hpq
          have hlt : k < (expectedClones flags.dest flags.groupId keys pre).length := by
            by_contra hge
            rw [List.getElem?_eq_none (Nat.le_of_not_lt hge)] at hcall
            exact Option.noConfusion hcall
          have hfull : (expectedClones flags.dest flags.groupId keys ps.flatten)[k]? =
              some call := by
            rw [hsplit, expectedClones_append, List.getElem?_append_left hlt]
            exact hcall
          have hlt2 : k < (expectedClones flags.dest flags.groupId keys ps.flatten).length := by
            rw [hsplit, expectedClones_append, List.length_append]
            omega
          have := hcl2 k call hlt2 hfull
          rw [hfail] at this
          exact Option.noConfusion this
        · intro hfuel
          rw [main_clone_error w flags fuel c keys ps pre rest k call err hr ⟨hps, hlast⟩ hsplit
            hns hcl hcall hfail hfuel]
          exact ⟨1, rfl, by decide⟩
      rcases namespacedPrefix_split ps.flatten with ⟨hall, _⟩ | ⟨d, rest, hd, hsplit⟩
      · rcases clones_cases w 0 (expectedClones flags.dest flags.groupId keys ps.flatten) with
          hcl | ⟨k, call, err, hcl, hcall, hfail⟩
        · refine Or.inl ⟨⟨c, keys, ps, hr, ⟨hps, hlast⟩,
            fun x hx => (namespaced_iff x).mpr (hall x hx), hcl⟩,
            ps.length + 1, fun fuel => ⟨?_, hbelow fuel⟩⟩
          intro hfuel
          rw [main_ok w flags fuel c keys ps hr ⟨hps, hlast⟩ hall hcl hfuel]
          rfl
        · exact Or.inr (Or.inl (hfails ps.flatten [] k call err (List.append_nil _).symm hall
            hcl hcall hfail))
      · rcases clones_cases w 0
            (expectedClones flags.dest flags.groupId keys (namespacedPrefix ps.flatten)) with
          hcl | ⟨k, call, err, hcl, hcall, hfail⟩
        · refine Or.inr (Or.inl ⟨?_, ps.length + 1, fun fuel => ⟨?_, hbelow fuel⟩⟩)
          · rintro ⟨c2, keys2, qs, hr2, ⟨hqs, hqlast⟩, hns2, _⟩
            obtain ⟨rfl, rfl⟩ := ready_unique w flags c c2 keys keys2 hr hr2
            have hpq : ps = qs :=
              pages_unique w c 0 ps qs hps (Or.inl hlast) hqs (Or.inl hqlast)
            subst hpq
            have hmem : d ∈ ps.flatten := by
              rw [hsplit]
              exact List.mem_append_right _ (List.mem_cons_self _ _)
            have := (namespaced_iff d).mp (hns2 d hmem)
            rw [hd] at this
            exact Bool.noConfusion this
          · intro hfuel
            rw [main_panic w flags fuel c keys ps (namespacedPrefix ps.flatten) d rest hr
              ⟨hps, hlast⟩ hsplit (namespacedPrefix_namespaced ps.flatten) hd hcl hfuel]
            exact ⟨2, rfl, by decide⟩
        · exact Or.inr (Or.inl (hfails (namespacedPrefix ps.flatten) (d :: rest) k call err
            hsplit (namespacedPrefix_namespaced ps.flatten) hcl hcall hfail))
    · refine Or.inr (Or.inl ⟨?_, ps.length + 1, fun fuel => ⟨?_, ?_⟩⟩)
      · rintro ⟨c2, keys2, qs, hr2, ⟨hqs, hqlast⟩, _⟩
        obtain ⟨rfl, rfl⟩ := ready_unique w flags c c2 keys keys2 hr hr2
        have hpq : ps = qs :=
          pages_unique w c 0 ps qs hps (Or.inr ⟨err, hlast⟩) hqs (Or.inl hqlast)
        subst hpq
        rw [hlast] at hqlast
        exact Except.noConfusion hqlast
      · intro hfuel
        rw [main_enum_error w flags fuel c keys ps err hr hps hlast hfuel]
        exact ⟨1, rfl, by decide⟩
      · intro hfuel
        rw [main_running w flags fuel c keys ps hr hps (Nat.lt_succ_iff.mp hfuel)]
        rfl
    · refine Or.inr (Or.inr ⟨?_, ?_⟩)
      · rintro ⟨c2, keys2, qs, hr2, ⟨_, hqlast⟩, _⟩
        obtain ⟨rfl, rfl⟩ := ready_unique w flags c c2 keys keys2 hr hr2
        exact hnever qs.length (Or.inl hqlast)
      · intro fuel
        rw [main_running w flags fuel c keys (pagesUpTo w c 0 fuel) hr
          (servesPages_pagesUpTo w c 0 fuel fun i _ => hnever i)
          (by rw [length_pagesUpTo])]
        rfl
  · refine Or.inr (Or.inl ⟨?_, 0, fun fuel =>
      ⟨fun _ => ⟨1, (main_not_ready w flags fuel hready).1, by decide⟩,
      fun h => absurd h (Nat.not_lt_zero _)⟩⟩)
    rintro ⟨c, keys, _, hr, _⟩
    exact hready ⟨c, keys, hr⟩

/-- C8 as amended: `main` returns normally (exit status 0) for some amount of fuel
if and only if the flags are set, the client is built, the key file exists and
loads, every listing request up to and with the first empty page succeeds,
every enumerated project is there with its namespace (no nil pointer) and
every clone of a matching project succeeds.  In every other world the run
either ends with a non-zero exit status (for every amount of fuel from some
amount on) or never ends: it is still iterating for every amount of fuel. -/
theorem C8_exit_status_zero_iff_all_stages_succeed (w : World) (flags : Flags) :
    ((∃ fuel, (main w flags fuel).exitStatus = some 0) ↔ Succeeds w flags) ∧
    (¬ Succeeds w flags →
      (∃ n, ∀ fuel, n ≤ fuel →
        ∃ code, (main w flags fuel).exitStatus = some code ∧ code ≠ 0) ∨
      (∀ fuel, (main w flags fuel).exitStatus = none)) := by
  rcases main_cases w flags with ⟨hs, n, hn⟩ | ⟨hs, n, hn⟩ | ⟨hs, hrun⟩
  · exact ⟨⟨fun _ => hs, fun _ => ⟨n, (hn n).1 (Nat.le_refl n)⟩⟩, fun h => absurd hs h⟩
  · refine ⟨⟨?_, fun h => absurd h hs⟩, fun _ => Or.inl ⟨n, fun fuel h => (hn fuel).1 h⟩⟩
    rintro ⟨fuel, hfuel⟩
    rcases Nat.lt_or_ge fuel n with h | h
    · rw [(hn fuel).2 h] at hfuel
      exact Option.noConfusion hfuel
    · obtain ⟨code, hcode, hne⟩ := (hn fuel).1 h
      rw [hcode] at hfuel
      exact absurd (Option.some.inj hfuel) hne
  · refine ⟨⟨?_, fun h => absurd h hs⟩, fun _ => Or.inr hrun⟩
    rintro ⟨fuel, hfuel⟩
    rw [hrun fuel] at hfuel
    exact Option.noConfusion hfuel

/-- C8 as amended, on the scenario of the specification: the run with the projects
`a`, `b`, `c` returns normally, so all stages have succeeded. -/
theorem C8_exit_status_zero_iff_all_stages_succeed_witness :
    Succeeds (scriptedWorld [Except.ok [listed "a" 42, listed "b" 7,
      listed "c" 42]] []) exampleFlags :=
  (C8_exit_status_zero_iff_all_stages_succeed
    (scriptedWorld [Except.ok [listed "a" 42, listed "b" 7,
      listed "c" 42]] []) exampleFlags).1.mp ⟨2, rfl⟩

/-- C8 as stated fails twice.  On a server that never returns an empty page, with
all flags set, the client built and the key loaded, the run neither returns
normally nor ends with a non-zero status, for any amount of fuel.  On a
server that lists one project without a namespace, all the conditions of the
claim hold (flags, client, key, the listing requests, and there is no clone
that could fail) and yet no run returns normally: `main` panics with status 2. -/
theorem C8_counterexample_endless_server_and_missing_namespace :
    ¬ ((∃ fuel, (main endlessWorld exampleFlags fuel).exitStatus = some 0) ∨
       (∃ fuel code, (main endlessWorld exampleFlags fuel).exitStatus = some code ∧ code ≠ 0)) ∧
    (Ready (scriptedWorld [Except.ok [orphan]] []) exampleFlags exampleClient exampleKeys ∧
      Enumerates (scriptedWorld [Except.ok [orphan]] []) exampleClient [[orphan]] ∧
      ClonesSucceed (scriptedWorld [Except.ok [orphan]] []) 0
        (expectedClones exampleFlags.dest exampleFlags.groupId exampleKeys [[orphan]].flatten)
        (expectedClones exampleFlags.dest exampleFlags.groupId exampleKeys
          [[orphan]].flatten).length ∧
      (main (scriptedWorld [Except.ok [orphan]] []) exampleFlags 2).exitStatus = some 2 ∧
      ¬ ∃ fuel, (main (scriptedWorld [Except.ok [orphan]] []) exampleFlags fuel).exitStatus =
        some 0) := by
  have hr : Ready endlessWorld exampleFlags exampleClient exampleKeys :=
    ⟨by decide, rfl, rfl, rfl⟩
  have hnever : ∀ n, ¬ Stops endlessWorld exampleClient 0 n := by
    intro n
    rw [not_stops_iff]
    exact ⟨[listed "a" 42], rfl, by simp⟩
  have hrun : ∀ fuel, (main endlessWorld exampleFlags fuel).exitStatus = none := by
    intro fuel
    rw [main_running endlessWorld exampleFlags fuel exampleClient exampleKeys
      (pagesUpTo endlessWorld exampleClient 0 fuel) hr
      (servesPages_pagesUpTo endlessWorld exampleClient 0 fuel fun i _ => hnever i)
      (by rw [length_pagesUpTo])]
    rfl
  have hr2 : Ready (scriptedWorld [Except.ok [orphan]] []) exampleFlags exampleClient
      exampleKeys := ⟨by decide, rfl, rfl, rfl⟩
  have he2 : Enumerates (scriptedWorld [Except.ok [orphan]] []) exampleClient [[orphan]] :=
    ⟨fun i h => match i, h with
      | 0, _ => ⟨rfl, by simp⟩
      | i + 1, h => absurd h (by simp), rfl⟩
  refine ⟨?_, hr2, he2, fun _ _ _ _ => rfl, rfl, ?_⟩
  · rintro (⟨fuel, h⟩ | ⟨fuel, code, h, _⟩)
    · rw [hrun fuel] at h
      exact Option.noConfusion h
    · rw [hrun fuel] at h
      exact Option.noConfusion h
  · rintro ⟨fuel, hfuel⟩
    rcases Nat.lt_or_ge fuel 2 with h | h
    · rw [main_running (scriptedWorld [Except.ok [orphan]] []) exampleFlags fuel exampleClient
        exampleKeys [[orphan]] hr2 he2.1 (Nat.lt_succ_iff.mp h)] at hfuel
      exact Option.noConfusion hfuel
    · rw [main_panic (scriptedWorld [Except.ok [orphan]] []) exampleFlags fuel exampleClient
        exampleKeys [[orphan]] [] orphan [] hr2 he2 rfl (fun d hd => by simp at hd) rfl
        (fun i call hi _ => absurd hi (by simp [expectedClones, matching])) h] at hfuel
      exact absurd (Option.some.inj hfuel) (by decide)

theorem serverList_pageRequest (visible : List ServerProject) (k : Nat) :
    serverList visible (pageRequest ((k : Int) + 1)) =
      ((fullListing visible (pageRequest 1)).drop (k * 100)).take 100 := by
  simp only [serverList, pageRequest, add_sub_cancel_right, Int.toNat_ofNat]
  rfl

theorem fullListing_perm (visible : List ServerProject) :
    (fullListing visible (pageRequest 1)).Perm (memberProjects visible) := by
  unfold fullListing memberProjects
  refine (List.perm_insertionSort _ _).trans ?_
  have hkept : keptBy (pageRequest 1) = fun sp => !sp.project.Archived && sp.member := by
    funext sp
    cases h1 : sp.project.Archived <;> simp [keptBy, pageRequest, h1]
  rw [hkept]

theorem fullListing_sorted (visible : List ServerProject) :
    (fullListing visible (pageRequest 1)).Pairwise fun a b => a.CreatedAt ≤ b.CreatedAt := by
  haveI : IsTotal Project (orderedBefore (some "created_at") (some "asc")) :=
    ⟨fun a b => by
      simp only [orderedBefore, orderKey, if_true]
      exact le_total _ _⟩
  haveI : IsTrans Project (orderedBefore (some "created_at") (some "asc")) :=
    ⟨fun a b c hab hbc => by
      simp only [orderedBefore, orderKey, if_true] at hab hbc ⊢
      exact le_trans hab hbc⟩
  have h := List.sorted_insertionSort (orderedBefore (some "created_at") (some "asc"))
    ((visible.filter (keptBy (pageRequest 1))).map fun sp => sp.project)
  refine List.Pairwise.imp ?_ h
  intro a b hab
  have : orderKey (some "created_at") a ≤ orderKey (some "created_at") b := by
    simpa [orderedBefore] using hab
  simpa [orderKey] using this

theorem flatten_chunks (l : List ProjectPtr) (n : Nat) :
    ((List.range n).map fun i => (l.drop (i * 100)).take 100).flatten = l.take (n * 100) := by
  induction n with
  | zero => simp
  | succ n ih =>
    rw [List.range_succ, List.map_append, List.flatten_append, ih, Nat.succ_mul, List.take_add]
    simp

/-- Against the listing endpoint the enumeration returns the whole listing the
requests ask for. -/
theorem getAllProjects_server (w : World) (c : Client) (visible : List ServerProject)
    (s : State) (hc : s.GLC.Client = some c)
    (hw : ∀ client i opts,
      w.ListProjects client i opts = Except.ok ((serverList visible opts).map some)) :
    ∃ n, ∀ fuel, n ≤ fuel →
      (getAllProjects w fuel s).returned =
        some ((fullListing visible (pageRequest 1)).map some) := by
  have hanswer : ∀ i, answer w c (listRequests s.trace).length i =
      Except.ok ((((fullListing visible (pageRequest 1)).map some).drop (i * 100)).take 100) := by
    intro i
    rw [answer, hw, serverList_pageRequest, List.map_take, List.map_drop]
  rcases enumeration_cases w c (listRequests s.trace).length with
    ⟨ps, hps, hlast⟩ | ⟨ps, err, _, hlast⟩ | hnever
  · refine ⟨ps.length + 1, fun fuel hfuel => ?_⟩
    rw [getAllProjects_ok w c ps s fuel hc hps hlast hfuel]
    have hpages : ps = (List.range ps.length).map fun i =>
        (((fullListing visible (pageRequest 1)).map some).drop (i * 100)).take 100 := by
      refine (servesPages_eq w c _ ps hps).trans ?_
      unfold pagesUpTo
      exact List.map_congr_left fun i _ => by rw [hanswer i]; rfl
    have hrest : ((fullListing visible (pageRequest 1)).map some).drop (ps.length * 100) =
        [] := by
      rw [hanswer ps.length] at hlast
      have h := Except.ok.inj hlast
      cases hd : ((fullListing visible (pageRequest 1)).map some).drop (ps.length * 100) with
      | nil => rfl
      | cons x xs => rw [hd] at h; simp at h
    have hall : ((fullListing visible (pageRequest 1)).map some).take (ps.length * 100) =
        (fullListing visible (pageRequest 1)).map some := by
      have h := List.take_append_drop (ps.length * 100)
        ((fullListing visible (pageRequest 1)).map some)
      rw [hrest, List.append_nil] at h
      exact h
    simp only [Res.returned]
    rw [hpages, flatten_chunks, hall]
  · rw [hanswer ps.length] at hlast
    exact Except.noConfusion hlast
  · refine absurd (Or.inl ?_) (hnever (fullListing visible (pageRequest 1)).length)
    rw [hanswer, List.drop_eq_nil_of_le (by
      rw [List.length_map]
      exact Nat.le_mul_of_pos_right _ (by decide))]
    rfl

/-- C9 as amended: against a server that holds a set of visible projects and
answers each listing request by applying the archived and membership filters
of the request and its order, `getAllProjects` (given enough fuel) returns the
complete sequence of the visible projects that are not archived and that the
identity is a member of, each as often as it is visible, ordered by creation
time ascending: every such project occurs in the returned list, and no
archived project and no project without membership does. -/
theorem C9_returns_the_unarchived_member_projects (w : World) (c : Client)
    (visible : List ServerProject) (s : State) (hc : s.GLC.Client = some c)
    (hw : ∀ client i opts,
      w.ListProjects client i opts = Except.ok ((serverList visible opts).map some)) :
    ∃ n, ∀ fuel, n ≤ fuel → ∃ projects : List Project,
      (getAllProjects w fuel s).returned = some (projects.map some) ∧
      projects.Perm (memberProjects visible) ∧
      (projects.Pairwise fun a b => a.CreatedAt ≤ b.CreatedAt) ∧
      (∀ sp, sp ∈ visible → sp.project.Archived = false → sp.member = true →
        sp.project ∈ projects) ∧
      (∀ p, p ∈ projects →
        ∃ sp, sp ∈ visible ∧ sp.project = p ∧ sp.project.Archived = false ∧ sp.member = true) := by
  obtain ⟨n, hn⟩ := getAllProjects_server w c visible s hc hw
  refine ⟨n, fun fuel hfuel => ⟨_, hn fuel hfuel, fullListing_perm visible,
    fullListing_sorted visible, ?_, ?_⟩⟩
  · intro sp hsp harch hmem
    rw [(fullListing_perm visible).mem_iff]
    simp only [memberProjects, List.mem_map, List.mem_filter]
    exact ⟨sp, ⟨hsp, by simp [harch, hmem]⟩, rfl⟩
  · intro p hp
    rw [(fullListing_perm visible).mem_iff] at hp
    simp only [memberProjects, List.mem_map, List.mem_filter] at hp
    obtain ⟨sp, ⟨hsp, hkeep⟩, rfl⟩ := hp
    refine ⟨sp, hsp, rfl, ?_⟩
    simpa using hkeep

/-- C9 as amended, on the three visible projects of the example. -/
theorem C9_returns_the_unarchived_member_projects_witness :
    ∃ n, ∀ fuel, n ≤ fuel → ∃ projects : List Project,
      (getAllProjects (gitlabWorld exampleVisible) fuel clientState).returned =
        some (projects.map some) ∧
      projects.Perm (memberProjects exampleVisible) ∧
      (projects.Pairwise fun a b => a.CreatedAt ≤ b.CreatedAt) ∧
      (∀ sp, sp ∈ exampleVisible → sp.project.Archived = false → sp.member = true →
        sp.project ∈ projects) ∧
      (∀ p, p ∈ projects →
        ∃ sp, sp ∈ exampleVisible ∧ sp.project = p ∧ sp.project.Archived = false ∧
          sp.member = true) :=
  C9_returns_the_unarchived_member_projects (gitlabWorld exampleVisible) exampleClient
    exampleVisible clientState rfl (fun _ _ _ => rfl)

/-- C9 as stated fails: of three visible projects, one archived and one seen
without membership, the enumeration returns only the third. -/
theorem C9_counterexample_archived_and_non_member :
    (getAllProjects (gitlabWorld exampleVisible) 2 clientState).returned =
      some [some liveProject.project] ∧
    ¬ (∀ sp, sp ∈ exampleVisible → ∀ projects,
      (getAllProjects (gitlabWorld exampleVisible) 2 clientState).returned = some projects →
      some sp.project ∈ projects) := by
  refine ⟨rfl, fun h => ?_⟩
  have hold : some oldProject.project ∈ [some liveProject.project] :=
    h oldProject (by simp [exampleVisible]) _ rfl
  revert hold
  decide

end GoGitlabCloner
